import Mathlib

/-!
# Hydra core: shallow embedding and verification

This file embeds the lexer/parser/interpreter core of the `hydra`
language (C++ sources: `src/lexer.cpp` second revision, the canonical
string-interpolation-capable one, lines 760-2578; `src/interpreter.cpp`
first revision, lines 1-1616; `src/interpreter_functions.cpp` (print);
`src/state.cpp`; and the `System` registry from the repository's
`system.cpp` revision) and proves properties of the embedding.

Modelling conventions:

* C++ `double` is modelled as `ℚ` (exact rationals).  The only places
  where binary floating point behaviour could differ from exact
  arithmetic in the verified statements are documented at the theorems.
  `std::to_string(double)` (printf `%f`, six fractional digits, round to
  nearest) is modelled by `to_string_double` with ties rounded half away
  from zero on the absolute value; no verified statement depends on a
  tie.  Division by zero yields `0` in `ℚ` whereas C++ doubles give
  `inf`; no verified statement divides by zero.
* `std::string` is modelled as `List Char`; string positions are `Int`
  with `-1` playing the role of `(int)std::string::npos` (the C++ code
  stores positions in `int`, so the 64-bit `npos` truncates to `-1`).
  An out-of-range character read `s[i]` (undefined behaviour for
  `i = -1`, which the scanning loop performs on lines whose last token
  ends at a separator) is modelled as returning the NUL character, which
  makes the subsequent branch behave exactly as the real program does in
  practice (the read byte is branched against `'('`, `'['`, `'"'` and
  then discarded).
* `std::vector<Token>::back()` on an *empty* vector (performed by
  `tokenize_string` when a line starts with a bracket) dereferences the
  null data pointer of a freshly constructed vector; this is modelled as
  the distinguished outcome `Res.ub`.  Similarly `ParseResult` child
  accesses `children[0]` on an empty vector and the element read
  `tokens[tokens.size()]` at the end of `parse_argument_list`'s inner
  value loop are out of range; the former is modelled as `Res.ub`, the
  latter (a read of allocated-but-uninitialised memory immediately
  re-guarded by the `token_index < size` conjunct) is modelled as a
  default token whose value is not `","`, which reproduces the observed
  behaviour.
* `std::unordered_map` is modelled as an association list; `m[k] = v`
  replaces an existing binding in place or appends a new one.
* Diagnostic output (`print_error_message`, stderr usage dumps) and the
  diagnostic fields `line_number` / `current_line` of the C++ `State`
  are not modelled; stdout (the `print` builtin) is modelled as an
  append-only output list in the state.
* Among the builtin functions only `print` is embedded; the remaining
  builtins (`circle`, `line`, `sin`, ...) call into the canvas /
  transcendental-math collaborators that the specification declares out
  of scope.  In the model those names fail like unknown functions; no
  verified statement invokes them.  The `Pol` initializer is embedded
  except for `Pol::normalize_phi`, which adds/subtracts multiples of the
  irrational `2π`; no verified statement constructs a `Pol`.
* Every recursive function takes an explicit fuel argument and each
  nested call decrements it; `Res.nofuel` reports exhaustion and is
  distinct from a genuine `false` return of the C++ code.
-/

namespace Hydra

/-- Node kinds (`enum Type` of `system.hpp`, restricted to the
constructors used by the canonical revision, which names the `{`/`}`
kind `Parenthesis` as in the repository's `system.cpp`). -/
inductive Ty where
  | Argument
  | ArgumentList
  | Assignment
  | Empty
  | Error
  | Expression
  | Function
  | Initialization
  | Loop
  | Number
  | Operator
  | Parenthesis
  | Range
  | String
  | StringEscape
  | Unknown
  | Variable
deriving DecidableEq, Repr

/-- Outcome of an embedded C++ function: `ok` carries the returned
data, `fail` is a `false`/error return, `ub` marks executions that run
into undefined behaviour in the source, `nofuel` marks fuel
exhaustion of the embedding (not a behaviour of the program). -/
inductive Res (α : Type) where
  | ok (a : α)
  | fail
  | ub
  | nofuel
deriving DecidableEq, Repr

/-- True exactly for an `ok` outcome (a `true` return in C++). -/
def Res.isOk {α : Type} : Res α → Bool
  | .ok _ => true
  | _ => false

/-- Token tree (`struct Token` of `lexer.hpp`): a text, a kind and
recursively tokenized children. -/
inductive Token where
  | mk : List Char → Ty → List Token → Token

def Token.value : Token → List Char
  | .mk v _ _ => v

def Token.type : Token → Ty
  | .mk _ t _ => t

def Token.children : Token → List Token
  | .mk _ _ c => c

/-- Parse tree (`struct ParseResult` of `lexer.hpp`).  The diagnostic
`line_number` field is not modelled. -/
inductive ParseResult where
  | mk : Ty → List Char → List ParseResult → ParseResult

def ParseResult.type : ParseResult → Ty
  | .mk t _ _ => t

def ParseResult.value : ParseResult → List Char
  | .mk _ v _ => v

def ParseResult.children : ParseResult → List ParseResult
  | .mk _ _ c => c

/-- The double value of the C math constant `M_PI`
(`884279719003555 * 2^-48`, the IEEE-754 double closest to π). -/
def mPiQ : ℚ := 884279719003555 / 281474976710656

/-- Dynamically typed runtime value (`std::any` contents used by the
embedded core): a double, a string, or a `Pol` polar-coordinate pair.
`Pol`'s constructor normalization of the angle (multiples of the
irrational `2π`) is not modelled; no verified statement builds a
`pol`. -/
inductive Value where
  | num (v : ℚ)
  | str (s : List Char)
  | pol (r phi : ℚ)
deriving DecidableEq, Repr

/-- A single scope: variable name to value, modelled as an association
list (`std::unordered_map<std::string, std::any>`). -/
abbrev Scope := List (List Char × Value)

/-- Program state: the scope stack of `hydra::State` plus the stdout
stream written by the `print` builtin.  The diagnostic fields of the
C++ state are not modelled. -/
structure State where
  scopes : List Scope
  output : List (List Char)
deriving DecidableEq, Repr

/-- Fresh state: the `State()` constructor pushes one (global) scope. -/
def State.initial : State := ⟨[[]], []⟩

/-! ## Characters and C++ string primitives -/

/-- The opening brace character. -/
def braceOpen : Char := Char.ofNat 123

/-- The closing brace character. -/
def braceClose : Char := Char.ofNat 125

/-- The double-quote character. -/
def quoteChar : Char := Char.ofNat 34

/-- Whitespace set `" \t"` used by `clean_string` and the scanners. -/
def isWs (c : Char) : Bool := c = ' ' || c = '\t'

/-- Character read `s[i]`.  In range this is the character; out of
range it is NUL (see the modelling conventions above). -/
def charAt (s : List Char) (i : Int) : Char :=
  if i < 0 then Char.ofNat 0 else s.getD i.toNat (Char.ofNat 0)

/-- C++ `str.find_first_of(set, pos)` over a predicate, with `-1` for
`npos` (a negative `pos` corresponds to the huge `size_t` conversion
and yields `npos`). -/
def findFirstOfP (p : Char → Bool) (s : List Char) (pos : Int) : Int :=
  if pos < 0 then -1
  else
    match (s.drop pos.toNat).findIdx? p with
    | some k => pos + k
    | none => -1

/-- C++ `str.find_first_not_of(set, pos)`. -/
def findFirstNotOfP (p : Char → Bool) (s : List Char) (pos : Int) : Int :=
  findFirstOfP (fun c => !(p c)) s pos

/-- C++ `str.substr(pos, count)`: a negative `count` is the huge
`size_t` (`npos`) conversion, i.e. "until the end". -/
def substrI (s : List Char) (pos count : Int) : List Char :=
  if pos < 0 then []
  else
    let t := s.drop pos.toNat
    if count < 0 then t else t.take count.toNat

/-- First index at which `pat` occurs as a sublist (C++ `str.find`). -/
def findSub (s pat : List Char) : Int :=
  match s with
  | [] => if pat = [] then 0 else -1
  | _ :: rest =>
    if pat.isPrefixOf s then 0
    else
      let r := findSub rest pat
      if r = -1 then -1 else r + 1

/-- The separator set `" (+-*/),:=[]"` of `tokenize_string`. -/
def isSeparator (c : Char) : Bool :=
  c = ' ' || c = '(' || c = '+' || c = '-' || c = '*' || c = '/' ||
  c = ')' || c = ',' || c = ':' || c = '=' || c = '[' || c = ']'

/-- `Lexer::clean_string`: strip leading and trailing `" \t"`, then cut
everything from the first `"//"`. -/
def clean_string (s : List Char) : List Char :=
  let t := (((s.dropWhile isWs).reverse.dropWhile isWs).reverse)
  let c := findSub t ['/', '/']
  if c = -1 then t else t.take c.toNat

/-- `Lexer::is_string_empty`: empty or whitespace only. -/
def is_string_empty (s : List Char) : Bool :=
  s.all isWs

/-- The closing partner of an opening bracket
(`bracket_pairs` in `Lexer::position_of_matching_bracket_for_position`). -/
def bracketPartner (c : Char) : Char :=
  if c = '(' then ')'
  else if c = '[' then ']'
  else if c = braceOpen then braceClose
  else quoteChar

/-- Scanner for `position_of_matching_bracket_for_position`: absolute
index `idx`, current depth `depth` (opening brackets are checked before
closing ones, as in the source). -/
def matchScan (op cl : Char) : List Char → Int → Nat → Int
  | [], _, _ => -1
  | c :: rest, idx, depth =>
    if c = op then matchScan op cl rest (idx + 1) (depth + 1)
    else if c = cl then
      if depth = 1 then idx else matchScan op cl rest (idx + 1) (depth - 1)
    else matchScan op cl rest (idx + 1) depth

/-- `Lexer::position_of_matching_bracket_for_position`: the matching
closing bracket for the opening bracket at `position`, by depth
counting from `position + 1`; `-1` if there is none. -/
def position_of_matching_bracket_for_position
    (s : List Char) (opening : Char) (position : Int) : Int :=
  matchScan opening (bracketPartner opening)
    (s.drop (position + 1).toNat) (position + 1) 1

/-- `Lexer::position_of_matching_quote_for_position`: the next `"`
after `position`; `-1` (`(int)npos`) if there is none. -/
def position_of_matching_quote_for_position (s : List Char) (position : Int) : Int :=
  findFirstOfP (fun c => c = quoteChar) s (position + 1)

/-! ## Numbers: `std::stod` and `std::to_string` -/

/-- Decimal digit value. -/
def digitVal (c : Char) : Option Nat :=
  if '0' ≤ c ∧ c ≤ '9' then some (c.toNat - 48) else none

/-- Greedily read decimal digits, returning their value, their count
and the remainder. -/
def readDigits : List Char → Nat → Nat → (Nat × Nat × List Char)
  | [], acc, n => (acc, n, [])
  | c :: rest, acc, n =>
    match digitVal c with
    | some d => readDigits rest (acc * 10 + d) (n + 1)
    | none => (acc, n, c :: rest)

/-- Model of `std::stod` on the strings this interpreter produces:
optional whitespace, optional sign, decimal mantissa with optional
fractional part, optional decimal exponent; trailing characters are
ignored; `none` when no conversion is possible (C++ throws
`invalid_argument`).  Hex/inf/nan forms are not modelled; no token of
the verified statements uses them. -/
def stodQ (s : List Char) : Option ℚ :=
  let t := s.dropWhile isWs
  let (sgn, t1) :=
    match t with
    | '-' :: r => ((-1 : ℚ), r)
    | '+' :: r => ((1 : ℚ), r)
    | _ => ((1 : ℚ), t)
  let (ip, ipCount, t2) := readDigits t1 0 0
  let (fp, fpCount, t3) :=
    match t2 with
    | '.' :: r => readDigits r 0 0
    | _ => (0, 0, t2)
  if ipCount = 0 ∧ fpCount = 0 then none
  else
    let mantissa : ℚ := (ip : ℚ) + (fp : ℚ) / ((10 : ℚ) ^ fpCount)
    let expPart : ℚ :=
      match t3 with
      | 'e' :: r | 'E' :: r =>
        let (esgn, r1) :=
          match r with
          | '-' :: r2 => (false, r2)
          | '+' :: r2 => (true, r2)
          | _ => (true, r)
        let (ev, ec, _) := readDigits r1 0 0
        if ec = 0 then 1 else if esgn then (10 : ℚ) ^ ev else ((10 : ℚ) ^ ev)⁻¹
      | _ => 1
    some (sgn * mantissa * expPart)

/-- Decimal digits of a natural number. -/
def natDigits (n : Nat) : List Char := Nat.toDigits 10 n

/-- Model of `std::to_string(double)` (printf `%f`): sign, integer
part, `'.'`, exactly six fractional digits; the value is rounded to
six decimals (nearest; ties half away from zero on the magnitude, see
the modelling conventions). -/
def to_string_double (q : ℚ) : List Char :=
  let n : ℤ := round (|q| * 1000000)
  let ip := (n / 1000000).toNat
  let fp := (n % 1000000).toNat
  let fd := natDigits fp
  (if q < 0 then ['-'] else []) ++ natDigits ip ++
    '.' :: (List.replicate (6 - fd.length) '0' ++ fd)

/-- `Pol::to_string`. -/
def pol_to_string (r phi : ℚ) : List Char :=
  "Pol(".data ++ to_string_double r ++ ", ".data ++ to_string_double phi ++ ")".data

/-! ## Registry (`System` of `system.cpp`) -/

/-- `System::error_string`. -/
def error_string : List Char := "__ERROR__".data

/-- `System::types_for_keywords` (braces written via their codes). -/
def types_for_keywords : List (List Char × Ty) :=
  [("arc".data, .Function), ("circle".data, .Function), ("clear".data, .Function),
   ("cos".data, .Function), ("cosh".data, .Function), ("curve_angle".data, .Function),
   ("curve_distance".data, .Function), ("Euc".data, .Initialization),
   ("exp".data, .Function), ("for".data, .Loop), ("in".data, .Range),
   ("line".data, .Function), ("mark".data, .Function), ("Pol".data, .Initialization),
   ("print".data, .Function), ("random".data, .Function), ("save".data, .Function),
   ("sin".data, .Function), ("sinh".data, .Function), ("show".data, .Function),
   ("theta".data, .Function), ("var".data, .Assignment),
   ("+".data, .Operator), ("-".data, .Operator), ("*".data, .Operator),
   ("/".data, .Operator), ("=".data, .Assignment),
   ([braceOpen], .Parenthesis), ([braceClose], .Parenthesis)]

/-- `System::known_functions`: builtin name to declared parameter
names, in order. -/
def known_functions : List (List Char × List (List Char)) :=
  [("arc".data, ["center".data, "radius".data, "from".data, "to".data]),
   ("circle".data, ["center".data, "radius".data]),
   ("clear".data, []),
   ("cos".data, ["x".data]),
   ("cosh".data, ["x".data]),
   ("curve_angle".data, ["from".data, "to".data, "angle".data]),
   ("curve_distance".data, ["from".data, "to".data, "distance".data]),
   ("Euc".data, ["x".data, "y".data]),
   ("exp".data, ["x".data]),
   ("line".data, ["from".data, "to".data]),
   ("mark".data, ["center".data, "radius".data]),
   ("Pol".data, ["r".data, "phi".data]),
   ("print".data, ["message".data]),
   ("random".data, ["from".data, "to".data]),
   ("save".data, ["file".data]),
   ("sin".data, ["x".data]),
   ("sinh".data, ["x".data]),
   ("show".data, []),
   ("theta".data, ["r1".data, "r2".data, "R".data])]

/-- Association-list lookup (models `unordered_map::find`). -/
def alistFind {β : Type} (l : List (List Char × β)) (k : List Char) : Option β :=
  match l with
  | [] => none
  | (k', v) :: rest => if k' = k then some v else alistFind rest k

/-- `Lexer::type_of_string`: the error sentinel, then keyword lookup,
then `M_PI`, then numeric-literal detection via `stod`, else
`Unknown`. -/
def type_of_string (s : List Char) : Ty :=
  if s = error_string then .Error
  else
    match alistFind types_for_keywords s with
    | some t => t
    | none =>
      if s = "M_PI".data then .Number
      else if (stodQ s).isSome then .Number
      else .Unknown

/-! ## Scope store (`state.cpp`, the two-argument revision compiled
with the interpreter: `src/state.cpp`) -/

/-- Map write `m[k] = v`: replace in place or append. -/
def scopeInsert (sc : Scope) (k : List Char) (v : Value) : Scope :=
  match sc with
  | [] => [(k, v)]
  | (k', v') :: rest =>
    if k' = k then (k, v) :: rest else (k', v') :: scopeInsert rest k v

/-- Map lookup. -/
def scopeFind (sc : Scope) (k : List Char) : Option Value :=
  match sc with
  | [] => none
  | (k', v') :: rest => if k' = k then some v' else scopeFind rest k

/-- Apply `f` to the last scope (`scopes.back()`); on an empty stack
(unreachable: the stack always holds the global scope) nothing
happens. -/
def updateLastScope (ss : List Scope) (f : Scope → Scope) : List Scope :=
  match ss with
  | [] => []
  | [sc] => [f sc]
  | sc :: rest => sc :: updateLastScope rest f

/-- `State::value_for_variable`: innermost-first search through the
scope stack. -/
def value_for_variable (ss : List Scope) (k : List Char) : Option Value :=
  match ss with
  | [] => none
  | sc :: rest =>
    match value_for_variable rest k with
    | some v => some v
    | none => scopeFind sc k

/-- `State::value_for_variable_in_current_scope`: lookup in
`scopes.back()` only. -/
def value_for_variable_in_current_scope (ss : List Scope) (k : List Char) :
    Option Value :=
  match ss.getLast? with
  | some sc => scopeFind sc k
  | none => none

/-- `State::open_new_scope`. -/
def open_new_scope (ss : List Scope) : List Scope := ss ++ [[]]

/-- `State::close_scope`: refuses to remove the last remaining scope
(returns `none` for the `false` return, leaving the stack unchanged). -/
def close_scope (ss : List Scope) : Option (List Scope) :=
  if ss.length ≤ 1 then none else some ss.dropLast

/-- `State::define_variable_with_value`: fails if the name exists in
the current scope or the value is empty; otherwise writes into
`scopes.back()`. -/
def define_variable_with_value (ss : List Scope) (k : List Char)
    (v : Option Value) : Option (List Scope) :=
  if (value_for_variable_in_current_scope ss k).isSome then none
  else
    match v with
    | none => none
    | some w => some (updateLastScope ss (fun sc => scopeInsert sc k w))

/-- `State::set_value_for_variable` (two-argument revision): fails if
the name resolves nowhere or the value is empty; otherwise writes into
`scopes.back()` — the current scope, not the scope the name resolved
in. -/
def set_value_for_variable (ss : List Scope) (k : List Char)
    (v : Option Value) : Option (List Scope) :=
  if (value_for_variable ss k).isNone then none
  else
    match v with
    | none => none
    | some w => some (updateLastScope ss (fun sc => scopeInsert sc k w))

/-! ## Tokenizer (`Lexer::tokenize_string`, lines 944-1287) -/

mutual

/-- `Lexer::tokenize_string`: clean the line, then run the scanning
do-while loop appending to `tokens`; returns the C++ `bool` together
with the mutated token vector. -/
def tokenize_string : Nat → List Char → List Token → Res (Bool × List Token)
  | 0, _, _ => .nofuel
  | fuel + 1, str, tokens => tokLoop fuel (clean_string str) tokens 0

/-- One iteration of the scanning loop (lines 954-1226): skip
whitespace, then handle `(`/`[` (marker token or function-argument
absorption; the `tokens.back()` read happens before any push and is
undefined behaviour — `Res.ub` — when the token list is still empty),
`"` (string literal with escape scanning), falling through to the
separator scan. -/
def tokLoop : Nat → List Char → List Token → Int → Res (Bool × List Token)
  | 0, _, _, _ => .nofuel
  | fuel + 1, s, tokens, start =>
    let ci := findFirstNotOfP isWs s start
    let c := charAt s ci
    if c = '(' ∨ c = '[' then
      let mb := position_of_matching_bracket_for_position s c ci
      if mb = -1 then
        .ok (false, tokens ++ [Token.mk error_string (type_of_string error_string) []])
      else
        match tokens.getLast? with
        | none => .ub
        | some last =>
          let tokens1 :=
            if last.type ≠ .Function ∧ last.type ≠ .Initialization then
              if c = '(' then tokens ++ [Token.mk ['('] .Expression []]
              else tokens ++ [Token.mk ['['] .Range []]
            else tokens
          match tokens1.getLast? with
          | none => .ub
          | some back0 =>
            match tokenize_string fuel (substrI s (ci + 1) (mb - (ci + 1))) back0.children with
            | .ub => .ub
            | .nofuel => .nofuel
            | .fail => .fail
            | .ok (_, newChildren) =>
              let tokens2 := tokens1.dropLast ++ [Token.mk back0.value back0.type newChildren]
              tokAfter fuel s tokens2 (mb + 1)
    else if c = quoteChar then
      let mq := position_of_matching_quote_for_position s ci
      let content := substrI s (ci + 1) (mq - (ci + 1))
      match escLoop fuel content (-1) (findFirstOfP (fun ch => ch = '\\') content 0) [] with
      | .ub => .ub
      | .nofuel => .nofuel
      | .fail => .ok (false, tokens)
      | .ok children =>
        let tokens2 := tokens ++ [Token.mk content .String children]
        tokAfter fuel s tokens2 (mq + 1)
    else tokAfter fuel s tokens ci

/-- Fall-through part of the scanning loop (lines 1228-1284): the
`npos` break, the separator scan producing one plain token (skipped
when whitespace-only), and the do-while condition. -/
def tokAfter : Nat → List Char → List Token → Int → Res (Bool × List Token)
  | 0, _, _, _ => .nofuel
  | fuel + 1, s, tokens, ci =>
    if ci = -1 then .ok (true, tokens)
    else
      let pns := findFirstOfP isSeparator s ci
      let (current_token, nextIdx) :=
        if pns = -1 then (substrI s ci (-1), (-1 : Int))
        else if pns = ci then (substrI s ci 1, pns + 1)
        else (substrI s ci (pns - ci), pns)
      let tok := Token.mk current_token (type_of_string current_token) []
      let tokens1 :=
        if !is_string_empty tok.value || !tok.children.isEmpty then tokens ++ [tok] else tokens
      if nextIdx ≠ -1 ∧ nextIdx ≤ (s.length : Int) then tokLoop fuel s tokens1 nextIdx
      else .ok (true, tokens1)

/-- Escape scanning inside a quoted string (lines 1071-1214): plain
text runs become `String` children, `\(...)` escapes become
`StringEscape` children holding the recursively tokenized embedded
expression; `Res.fail` is the `return false` for an unmatched escape
bracket. -/
def escLoop : Nat → List Char → Int → Int → List Token → Res (List Token)
  | 0, _, _, _, _ => .nofuel
  | fuel + 1, content, lastEnd, pe, children =>
    if pe = -1 then .ok children
    else if pe ≥ (content.length : Int) - 1 then .ok children
    else if charAt content (pe + 1) ≠ '(' then
      escLoop fuel content lastEnd (findFirstOfP (fun ch => ch = '\\') content (pe + 1)) children
    else
      let pe1 := pe + 1
      let previous := substrI content (lastEnd + 1) (pe1 - 1 - (lastEnd + 1))
      let children1 :=
        if previous ≠ [] then children ++ [Token.mk previous .String []] else children
      let pmb := position_of_matching_bracket_for_position content '(' pe1
      if pmb = -1 then .fail
      else
        let escaped := substrI content (pe1 + 1) (pmb - (pe1 + 1))
        match tokenize_string fuel escaped [] with
        | .ub => .ub
        | .nofuel => .nofuel
        | .fail => .fail
        | .ok (_, escChildren) =>
          let children2 := children1 ++ [Token.mk escaped .StringEscape escChildren]
          if pmb ≥ (content.length : Int) - 1 then .ok children2
          else
            let pe2 := findFirstOfP (fun ch => ch = '\\') content (pmb + 1)
            if pe2 = -1 then
              let lastPart := substrI content (pmb + 1) (-1)
              .ok (if lastPart ≠ [] then children2 ++ [Token.mk lastPart .String []]
                   else children2)
            else escLoop fuel content pmb pe2 children2

end

/-! ## Parser (`lexer.cpp`, lines 1339-2558) -/

/-- Sequencing of embedded outcomes. -/
def Res.bind {α β : Type} : Res α → (α → Res β) → Res β
  | .ok a, f => f a
  | .fail, _ => .fail
  | .ub, _ => .ub
  | .nofuel, _ => .nofuel

/-- `Lexer::type_of_tokenized_string`: empty, else any token with text
`=` makes it an `Assignment`, else any `Operator`-kind token makes it
an `Expression`, else the first token's kind. -/
def type_of_tokenized_string (toks : List Token) : Ty :=
  match toks with
  | [] => .Empty
  | t0 :: _ =>
    if toks.any (fun t => t.value = "=".data) then .Assignment
    else if toks.any (fun t => t.type = .Operator) then .Expression
    else t0.type

/-- Splitting loop of `Lexer::parse_assignment` (lines 1583-1613):
index of the `=` token (`-1` if none) and the token lists on either
side; `none` is the error return for a second `=`. -/
def assignmentSplit : List Token → Int → Int → List Token → List Token →
    Option (Int × List Token × List Token)
  | [], _, idxEq, lhs, rhs => some (idxEq, lhs, rhs)
  | t :: rest, idx, idxEq, lhs, rhs =>
    if t.value = "=".data then
      if idxEq < 0 then assignmentSplit rest (idx + 1) idx lhs rhs else none
    else if idxEq < 0 then assignmentSplit rest (idx + 1) idxEq (lhs ++ [t]) rhs
    else assignmentSplit rest (idx + 1) idxEq lhs (rhs ++ [t])

/-- Value-collection loop of `Lexer::parse_argument_list` (lines
2483-2509), written on the token-list suffix: collect tokens up to the
next `,`; a `:` inside the run is an error (`none`); the remainder
starts at the `,` if one was found.  Reaching the end of the list
corresponds to the C++ read of `tokens[tokens.size()]` that is
immediately re-guarded by the `token_index < size` conjunct (see the
modelling conventions). -/
def valsSplit : List Token → Option (List Token × List Token)
  | [] => some ([], [])
  | t :: rest =>
    if t.value = ",".data then some ([], t :: rest)
    else if t.value = ":".data then none
    else
      match valsSplit rest with
      | none => none
      | some (vals, rem) => some (t :: vals, rem)

/-- Comma-splitting loop of `Lexer::parse_range` (lines 2208-2245):
the argument segments of a range, with the segment in progress closed
at each `,` and at the end of the child list. -/
def rangeSegments : List Token → List (List Token)
  | [] => [[]]
  | t :: rest =>
    if t.value = ",".data then [] :: rangeSegments rest
    else
      match rangeSegments rest with
      | seg :: segs => (t :: seg) :: segs
      | [] => [[t]]

/-- `Lexer::parse_number` (lines 2087-2113). -/
def parse_number (toks : List Token) : Res ParseResult :=
  match toks with
  | [t0] =>
    if t0.type = .Number then .ok (.mk .Number t0.value []) else .fail
  | _ => .fail

/-- `Lexer::parse_parenthesis` (lines 2115-2155). -/
def parse_parenthesis (toks : List Token) : Res ParseResult :=
  match toks with
  | [t0] =>
    if t0.value = [braceClose] then .ok (.mk .Parenthesis t0.value []) else .fail
  | _ => .fail

mutual

/-- `Lexer::parse_tokens` (lines 1519-1565): classify and dispatch via
`known_parsers`; unknown single tokens become candidate variable
references. -/
def parse_tokens : Nat → List Token → Res ParseResult
  | 0, _ => .nofuel
  | fuel + 1, toks =>
    let t := type_of_tokenized_string toks
    if t = .Empty then .ok (.mk .Empty [] [])
    else
      match t with
      | .Assignment => parse_assignment fuel toks
      | .Expression => parse_expression fuel toks
      | .Loop => parse_loop fuel toks
      | .Function => parse_function fuel toks
      | .Initialization => parse_initialization fuel toks
      | .Number => parse_number toks
      | .Parenthesis => parse_parenthesis toks
      | .Range => parse_range fuel toks
      | .String => parse_string_token fuel toks
      | _ =>
        match toks with
        | [t0] => .ok (.mk .Unknown t0.value [])
        | _ => .fail

/-- `Lexer::parse_assignment` (lines 1567-1711): split at the single
`=`; left side of length 1 is a plain reassignment, of length 2 a
`var` declaration; the right side is parsed recursively. -/
def parse_assignment : Nat → List Token → Res ParseResult
  | 0, _ => .nofuel
  | fuel + 1, toks =>
    match assignmentSplit toks 0 (-1) [] [] with
    | none => .fail
    | some (idxEq, lhs, rhs) =>
      if idxEq = 1 then
        match lhs with
        | l0 :: _ =>
          if l0.type = .Unknown then
            (parse_tokens fuel rhs).bind fun rhsRes =>
              .ok (.mk .Assignment [] [ParseResult.mk .Variable l0.value [], rhsRes])
          else .fail
        | [] => .fail
      else if idxEq = 2 then
        match lhs with
        | l0 :: l1 :: _ =>
          if l0.value ≠ "var".data then .fail
          else if l1.type ≠ .Unknown then .fail
          else
            (parse_tokens fuel rhs).bind fun rhsRes =>
              .ok (.mk .Assignment []
                [ParseResult.mk .Assignment l0.value [],
                 ParseResult.mk .Variable l1.value [], rhsRes])
        | _ => .fail
      else .fail

/-- Item loop of `Lexer::parse_expression` (lines 1760-1804): terms at
even indices (never operators), `Operator` nodes at odd indices. -/
def parse_expression_items : Nat → List Token → Nat → Res (List ParseResult)
  | 0, _, _ => .nofuel
  | _ + 1, [], _ => .ok []
  | fuel + 1, t :: rest, idx =>
    if idx % 2 = 0 then
      if t.type = .Operator then .fail
      else
        (parse_tokens fuel [t]).bind fun term =>
          (parse_expression_items fuel rest (idx + 1)).bind fun items =>
            .ok (term :: items)
    else
      if t.type ≠ .Operator then .fail
      else
        (parse_expression_items fuel rest (idx + 1)).bind fun items =>
          .ok (ParseResult.mk .Operator t.value [] :: items)

/-- `Lexer::parse_expression` (lines 1713-1816): single numbers unwrap,
single `Expression` tokens recurse into their children, longer token
lists must alternate term/operator with odd length. -/
def parse_expression : Nat → List Token → Res ParseResult
  | 0, _ => .nofuel
  | fuel + 1, toks =>
    match toks with
    | [] => .fail
    | [t0] =>
      if t0.type = .Number then .ok (.mk .Number t0.value [])
      else if t0.type = .Expression ∧ t0.children.isEmpty = false then parse_expression fuel t0.children
      else .fail
    | _ =>
      if toks.length % 2 = 1 then
        (parse_expression_items fuel toks 0).bind fun items =>
          .ok (.mk .Expression [] items)
      else .fail

/-- `Lexer::parse_function` (lines 1819-1899): one `Function` token
whose children are the argument list, validated against the registry. -/
def parse_function : Nat → List Token → Res ParseResult
  | 0, _ => .nofuel
  | fuel + 1, toks =>
    match toks with
    | [t0] =>
      if t0.type ≠ .Function then .fail
      else
        match alistFind known_functions t0.value with
        | none => .fail
        | some args =>
          (parse_argument_list fuel t0.children args).bind fun al =>
            .ok (.mk .Function t0.value [al])
    | _ => .fail

/-- `Lexer::parse_initialization` (lines 1901-1979): like a function
call, but the argument children must be non-empty; reads `tokens[0]`
without a size check (undefined behaviour on an empty list). -/
def parse_initialization : Nat → List Token → Res ParseResult
  | 0, _ => .nofuel
  | fuel + 1, toks =>
    match toks with
    | [] => .ub
    | t0 :: _ =>
      if t0.type ≠ .Initialization then .fail
      else
        match alistFind known_functions t0.value with
        | none => .fail
        | some args =>
          if t0.children.isEmpty then .fail
          else
            (parse_argument_list fuel t0.children args).bind fun al =>
              .ok (.mk .Initialization t0.value [al])

/-- `Lexer::parse_loop` (lines 1981-2085): exactly `for`, a variable
name, `in`, a `Range` token and `{`. -/
def parse_loop : Nat → List Token → Res ParseResult
  | 0, _ => .nofuel
  | fuel + 1, toks =>
    match toks with
    | [t0, t1, t2, t3, t4] =>
      if t0.value ≠ "for".data then .fail
      else if t1.type ≠ .Unknown ∧ t1.type ≠ .Variable then .fail
      else if t2.value ≠ "in".data then .fail
      else if t3.type ≠ .Range then .fail
      else
        (parse_range fuel [t3]).bind fun rangeRes =>
          if t4.value ≠ [braceOpen] then .fail
          else .ok (.mk .Loop t0.value [ParseResult.mk .Variable t1.value [], rangeRes])
    | _ => .fail

/-- Argument parsing loop of `Lexer::parse_range`. -/
def rangeArgs : Nat → List (List Token) → Res (List ParseResult)
  | 0, _ => .nofuel
  | _ + 1, [] => .ok []
  | fuel + 1, seg :: segs =>
    (parse_tokens fuel seg).bind fun arg =>
      (rangeArgs fuel segs).bind fun args => .ok (arg :: args)

/-- `Lexer::parse_range` (lines 2161-2259): one `Range` token with at
least five children (`from , step , to`), split at commas into exactly
three recursively parsed arguments. -/
def parse_range : Nat → List Token → Res ParseResult
  | 0, _ => .nofuel
  | fuel + 1, toks =>
    match toks with
    | [t0] =>
      if t0.type ≠ .Range then .fail
      else if t0.children.length < 5 then .fail
      else
        (rangeArgs fuel (rangeSegments t0.children)).bind fun args =>
          if args.length ≠ 3 then .fail
          else .ok (.mk .Range t0.value args)
    | _ => .fail

/-- `Lexer::parse_string_token` (lines 2262-2379): a single `String`
token; children (`String` runs and `StringEscape` expressions) are
parsed recursively, other child kinds are skipped. -/
def parse_string_token : Nat → List Token → Res ParseResult
  | 0, _ => .nofuel
  | fuel + 1, toks =>
    match toks with
    | [t0] =>
      if t0.type ≠ .String then .fail
      else if t0.children.isEmpty then .ok (.mk .String t0.value [])
      else
        (stringChildren fuel t0.children).bind fun cs =>
          .ok (.mk .String t0.value cs)
    | _ => .fail

/-- Child loop of `parse_string_token` (lines 2309-2372). -/
def stringChildren : Nat → List Token → Res (List ParseResult)
  | 0, _ => .nofuel
  | _ + 1, [] => .ok []
  | fuel + 1, child :: rest =>
    if child.type = .String then
      (parse_string_token fuel [child]).bind fun c =>
        (stringChildren fuel rest).bind fun cs => .ok (c :: cs)
    else if child.type = .StringEscape then
      if child.children.isEmpty then .fail
      else
        (parse_tokens fuel child.children).bind fun c =>
          (stringChildren fuel rest).bind fun cs => .ok (c :: cs)
    else stringChildren fuel rest

/-- `Lexer::parse_argument_list` (lines 2381-2558): positional
`name : value`-token matching against the declared parameter names.
Note that the loop ends as soon as the token list is exhausted — there
is no check that every declared parameter was supplied. -/
def parse_argument_list : Nat → List Token → List (List Char) → Res ParseResult
  | 0, _, _ => .nofuel
  | fuel + 1, toks, expected =>
    if toks.isEmpty then .fail else argLoop fuel toks expected 0 []

/-- Main loop of `parse_argument_list` (lines 2412-2551), written on
the token-list suffix: check the extra-argument bound, match the next
expected name, require `:`, collect and parse the value tokens, then
continue past the separating comma. -/
def argLoop : Nat → List Token → List (List Char) → Nat → List ParseResult →
    Res ParseResult
  | 0, _, _, _, _ => .nofuel
  | _ + 1, [], _, _, acc => .ok (ParseResult.mk .ArgumentList [] acc)
  | fuel + 1, nameTok :: rest, expected, found, acc =>
    if found ≥ expected.length then .fail
    else if nameTok.value ≠ expected.getD found [] then .fail
    else
      match rest with
      | [] => .fail
      | colonTok :: rest2 =>
        if colonTok.value ≠ ":".data then .fail
        else
          match rest2 with
          | [] => .fail
          | _ :: _ =>
            match valsSplit rest2 with
            | none => .fail
            | some (vals, rem) =>
              (parse_tokens fuel vals).bind fun argEval =>
                argLoop fuel (rem.drop 1) expected (found + 1)
                  (acc ++ [ParseResult.mk .Argument nameTok.value [argEval]])

end

/-- `Lexer::parse_string` (lines 1494-1517): tokenize, then parse the
token list. -/
def parse_string : Nat → List Char → Res ParseResult
  | 0, _ => .nofuel
  | fuel + 1, str =>
    match tokenize_string fuel str [] with
    | .ok (true, toks) => parse_tokens fuel toks
    | .ok (false, _) => .fail
    | .ub => .ub
    | .nofuel => .nofuel
    | .fail => .fail

/-- Line loop of `Lexer::parse_code` (lines 1387-1491): parsed lines
are appended to the innermost open statement list; a `Loop` line opens
a new list (its children), a `Parenthesis` line closes it; a close on
the base frame makes every continuation of the C++ code operate on an
empty `code_scopes` vector (undefined behaviour, `Res.ub`); leftover
open frames at the end are the unterminated-loop error. -/
def parse_code_lines : Nat → List (List Char) → List ParseResult →
    List (ParseResult × List ParseResult) → Res (List ParseResult)
  | 0, _, _, _ => .nofuel
  | _ + 1, [], acc, [] => .ok acc
  | _ + 1, [], _, _ :: _ => .fail
  | fuel + 1, line :: rest, acc, stack =>
    match parse_string fuel line with
    | .ok r =>
      if r.type = .Loop then parse_code_lines fuel rest [] ((r, acc) :: stack)
      else if r.type = .Parenthesis then
        match stack with
        | (loopNode, outerAcc) :: stack2 =>
          parse_code_lines fuel rest
            (outerAcc ++ [ParseResult.mk .Loop loopNode.value (loopNode.children ++ acc)])
            stack2
        | [] => .ub
      else parse_code_lines fuel rest (acc ++ [r]) stack
    | .fail => .fail
    | .ub => .ub
    | .nofuel => .nofuel

/-- `Lexer::parse_code`. -/
def parse_code (fuel : Nat) (lines : List (List Char)) : Res (List ParseResult) :=
  parse_code_lines fuel lines [] []

/-! ## Interpreter (`interpreter.cpp` first revision, lines 1-1616, and
`function_print` of `interpreter_functions.cpp`) -/

mutual

/-- `Interpreter::parse_result_is_valid`: no `Error` node anywhere in
the tree. -/
def parse_result_is_valid : ParseResult → Bool
  | .mk t _ cs => if t = .Error then false else childrenValid cs

/-- Child conjunction of `parse_result_is_valid`. -/
def childrenValid : List ParseResult → Bool
  | [] => true
  | c :: rest => parse_result_is_valid c && childrenValid rest

end

/-- `Interpreter::number_from_value`: `std::any_cast<double>`. -/
def number_from_value : Option Value → Option ℚ
  | some (.num v) => some v
  | _ => none

/-- `Interpreter::string_representation_of_interpretation_result`:
doubles via `std::to_string`, strings as themselves, `Pol` via its
`to_string`; an empty `any` has no representation. -/
def string_representation_of_interpretation_result :
    Option Value → Option (List Char)
  | some (.num v) => some (to_string_double v)
  | some (.str s) => some s
  | some (.pol r phi) => some (pol_to_string r phi)
  | none => none

/-- Evaluated named arguments of a call
(`std::unordered_map<std::string, std::any>`). -/
abbrev ArgsMap := List (List Char × Option Value)

/-- Map write into the evaluated-arguments map. -/
def argsInsert (m : ArgsMap) (k : List Char) (v : Option Value) : ArgsMap :=
  match m with
  | [] => [(k, v)]
  | (k', v') :: rest =>
    if k' = k then (k, v) :: rest else (k', v') :: argsInsert rest k v

/-- `Interpreter::argument_value_for_parameter`. -/
def argument_value_for_parameter (m : ArgsMap) (k : List Char) :
    Option (Option Value) :=
  match m with
  | [] => none
  | (k', v') :: rest =>
    if k' = k then some v' else argument_value_for_parameter rest k

/-- `Interpreter::number_value_for_parameter`: argument lookup followed
by the numeric cast. -/
def number_value_for_parameter (m : ArgsMap) (k : List Char) : Option ℚ :=
  match argument_value_for_parameter m k with
  | some v => number_from_value v
  | none => none

/-- Result of one embedded interpretation step: the C++ `bool` return
with the `std::any` out-parameter, plus the state after the call (also
meaningful for `fail`, since the C++ code mutates the state before
returning `false`). -/
abbrev IOut := Res (Option Value) × State

/-- `Interpreter::interpret_number` (lines 651-692): `stod`, with the
`M_PI` fallback. -/
def interpret_number (st : State) (input : ParseResult) : IOut :=
  match stodQ input.value with
  | some v => (.ok (some (.num v)), st)
  | none =>
    if input.value = "M_PI".data then (.ok (some (.num mPiQ)), st)
    else (.fail, st)

/-- `Interpreter::interpret_variable` (lines 1212-1240): innermost-first
lookup through the scope stack. -/
def interpret_variable (st : State) (input : ParseResult) : IOut :=
  match value_for_variable st.scopes input.value with
  | some v => (.ok (some v), st)
  | none => (.fail, st)

/-- `Interpreter::interpret_unknown` (lines 776-814): an `Unknown` leaf
without children is treated as a variable reference. -/
def interpret_unknown (st : State) (input : ParseResult) : IOut :=
  if input.type ≠ .Unknown then (.fail, st)
  else if !input.children.isEmpty then (.fail, st)
  else interpret_variable st input

mutual

/-- `Interpreter::interpret_parse_result` (lines 94-139): dispatch over
the node kind via `known_interpretations`; `Error` fails, `Empty`
succeeds without a value, kinds without an interpretation fail. -/
def interpret_parse_result : Nat → State → ParseResult → IOut
  | 0, st, _ => (.nofuel, st)
  | fuel + 1, st, input =>
    if input.type = .Error then (.fail, st)
    else if input.type = .Empty then (.ok none, st)
    else
      match input.type with
      | .Assignment => interpret_assignment fuel st input
      | .Initialization => interpret_initialization fuel st input
      | .Expression => interpret_expression fuel st input
      | .Function => interpret_function fuel st input
      | .Loop => interpret_loop fuel st input
      | .Number => interpret_number st input
      | .String => interpret_string fuel st input
      | .Unknown => interpret_unknown st input
      | .Variable => interpret_variable st input
      | _ => (.fail, st)

/-- `Interpreter::interpret_assignment` (lines 141-331): the validity
gate, then the `var` declaration form (`define_variable_with_value`
into the current scope) or the reassignment form
(`set_value_for_variable`).  The `children[0]` read happens before any
size check and is undefined behaviour on a childless node. -/
def interpret_assignment : Nat → State → ParseResult → IOut
  | 0, st, _ => (.nofuel, st)
  | fuel + 1, st, input =>
    if !parse_result_is_valid input then (.fail, st)
    else
      match input.children with
      | [] => (.ub, st)
      | c0 :: _ =>
        if c0.type = .Assignment then
          match input.children with
          | [_, c1, c2] =>
            if c1.type ≠ .Variable then (.fail, st)
            else if c1.value.isEmpty then (.fail, st)
            else if c1.value.headD (Char.ofNat 0) = '_' then (.fail, st)
            else
              match interpret_parse_result fuel st c2 with
              | (.ok v, st1) =>
                match define_variable_with_value st1.scopes c1.value v with
                | some ss => (.ok v, { st1 with scopes := ss })
                | none => (.fail, st1)
              | other => other
          | _ => (.fail, st)
        else
          match input.children with
          | [c0', c1] =>
            match interpret_parse_result fuel st c1 with
            | (.ok v, st1) =>
              match set_value_for_variable st1.scopes c0'.value v with
              | some ss => (.ok v, { st1 with scopes := ss })
              | none => (.fail, st1)
            | other => other
          | _ => (.fail, st)

/-- `Interpreter::interpret_string` (lines 694-774): no children means
the literal text; otherwise the children are interpreted in order and
their string representations concatenated (interpolation). -/
def interpret_string : Nat → State → ParseResult → IOut
  | 0, st, _ => (.nofuel, st)
  | fuel + 1, st, input =>
    if input.type ≠ .String then (.fail, st)
    else if input.children.isEmpty then (.ok (some (.str input.value)), st)
    else stringParts fuel st input.children []

/-- Child loop of `interpret_string` (lines 740-767). -/
def stringParts : Nat → State → List ParseResult → List Char → IOut
  | 0, st, _, _ => (.nofuel, st)
  | _ + 1, st, [], acc => (.ok (some (.str acc)), st)
  | fuel + 1, st, part :: rest, acc =>
    match interpret_parse_result fuel st part with
    | (.ok v, st1) =>
      match string_representation_of_interpretation_result v with
      | some s => stringParts fuel st1 rest (acc ++ s)
      | none => (.fail, st1)
    | other => other

/-- `Interpreter::interpret_expression` (lines 816-1210): first pass
over the children. -/
def interpret_expression : Nat → State → ParseResult → IOut
  | 0, st, _ => (.nofuel, st)
  | fuel + 1, st, input => exprPass1 fuel st input.children 0 []

/-- First pass of `interpret_expression` (lines 856-1055): evaluate
every `*`/`/` immediately — left operand from the back of the working
list, right operand from the next child — and push the textual
intermediate (`std::to_string` of the result) as a fresh `Number`
node; everything else is appended to the working list. -/
def exprPass1 : Nat → State → List ParseResult → Nat → List ParseResult → IOut
  | 0, st, _, _, _ => (.nofuel, st)
  | fuel + 1, st, children, idx, remaining =>
    if h : idx < children.length then
      let child := children.get ⟨idx, h⟩
      if child.type = .Operator then
        if idx % 2 ≠ 1 then (.fail, st)
        else
          let op := child.value
          if op = "*".data ∨ op = "/".data then
            match remaining.getLast? with
            | none => (.ub, st)
            | some lhsNode =>
              let remaining1 := remaining.dropLast
              match interpret_parse_result fuel st lhsNode with
              | (.ok lv, st1) =>
                match number_from_value lv with
                | none => (.fail, st1)
                | some lhsVal =>
                  match children.get? (idx + 1) with
                  | none => (.ub, st1)
                  | some rhsNode =>
                    match interpret_parse_result fuel st1 rhsNode with
                    | (.ok rv, st2) =>
                      match number_from_value rv with
                      | none => (.fail, st2)
                      | some rhsVal =>
                        let resultValue :=
                          if op = "*".data then lhsVal * rhsVal else lhsVal / rhsVal
                        exprPass1 fuel st2 children (idx + 2)
                          (remaining1 ++
                            [ParseResult.mk .Number (to_string_double resultValue) []])
                    | other => other
              | other => other
          else exprPass1 fuel st children (idx + 1) (remaining ++ [child])
      else exprPass1 fuel st children (idx + 1) (remaining ++ [child])
    else exprTail fuel st remaining

/-- Tail of `interpret_expression` (lines 1070-1207): a single
remaining element is interpreted as the whole result; otherwise the
remaining terms are folded left to right starting from `0` with `+` as
the initial operation. -/
def exprTail : Nat → State → List ParseResult → IOut
  | 0, st, _ => (.nofuel, st)
  | fuel + 1, st, remaining =>
    match remaining with
    | [] => (.fail, st)
    | [single] =>
      match interpret_parse_result fuel st single with
      | (.ok v, st1) => (.ok v, st1)
      | other => other
    | _ => exprPass2 fuel st remaining 0 0 "+".data

/-- Folding loop of `interpret_expression` (lines 1112-1193). -/
def exprPass2 : Nat → State → List ParseResult → Nat → ℚ → List Char → IOut
  | 0, st, _, _, _, _ => (.nofuel, st)
  | fuel + 1, st, remaining, idx, acc, curOp =>
    if h : idx < remaining.length then
      let item := remaining.get ⟨idx, h⟩
      if idx % 2 = 0 then
        match interpret_parse_result fuel st item with
        | (.ok v, st1) =>
          match number_from_value v with
          | none => (.fail, st1)
          | some w =>
            exprPass2 fuel st1 remaining (idx + 1)
              (if curOp = "+".data then acc + w else acc - w) curOp
        | other => other
      else
        if item.type ≠ .Operator then (.fail, st)
        else exprPass2 fuel st remaining (idx + 1) acc item.value
    else (.ok (some (.num acc)), st)

/-- `Interpreter::interpret_loop` (lines 430-649): structural checks,
scope opening (before the loop-variable and range checks, so those
error paths return with the fresh scope still on the stack), bound
interpretation, loop-variable definition (return value ignored), and
the iteration loop. -/
def interpret_loop : Nat → State → ParseResult → IOut
  | 0, st, _ => (.nofuel, st)
  | fuel + 1, st, loop =>
    if loop.type ≠ .Loop then (.fail, st)
    else if loop.children.length < 3 then (.fail, st)
    else
      let st1 := { st with scopes := open_new_scope st.scopes }
      match loop.children with
      | c0 :: c1 :: _ =>
        if c0.type ≠ .Unknown ∧ c0.type ≠ .Variable then (.fail, st1)
        else if c1.type ≠ .Range then (.fail, st1)
        else if c1.children.length ≠ 3 then (.fail, st1)
        else
          match c1.children with
          | [b0, b1, b2] =>
            match interpret_parse_result fuel st1 b0 with
            | (.ok v0, st2) =>
              match number_from_value v0 with
              | none => (.fail, st2)
              | some lower =>
                match interpret_parse_result fuel st2 b1 with
                | (.ok v1, st3) =>
                  match number_from_value v1 with
                  | none => (.fail, st3)
                  | some step =>
                    match interpret_parse_result fuel st3 b2 with
                    | (.ok v2, st4) =>
                      match number_from_value v2 with
                      | none => (.fail, st4)
                      | some upper =>
                        let st5 : State :=
                          match define_variable_with_value st4.scopes c0.value
                              (some (.num lower)) with
                          | some ss => { st4 with scopes := ss }
                          | none => st4
                        loopIter fuel st5 loop.children c0.value step upper lower
                    | other => other
                | other => other
            | other => other
          | _ => (.fail, st1)
      | _ => (.fail, st1)

/-- Iteration loop of `interpret_loop` (lines 575-648).  After a
successful pass over the body the C++ code re-reads the loop variable
from the current scope (lines 605-612), but the negated lookup result
short-circuits the `&&` before `number_from_value` can run when the
lookup succeeds, and after a failed lookup the freshly reset `any`
makes `number_from_value` false — so the error branch is dead and the
increment always starts from the interpreter's own local
`loop_variable`, here the parameter `lv`. -/
def loopIter : Nat → State → List ParseResult → List Char → ℚ → ℚ → ℚ → IOut
  | 0, st, _, _, _, _, _ => (.nofuel, st)
  | fuel + 1, st, children, name, step, upper, lv =>
    if lv ≤ upper then
      match bodyRun fuel st (children.drop 2) with
      | (.ok _, st1) =>
        let lookup := value_for_variable_in_current_scope st1.scopes name
        if lookup.isNone ∧ (number_from_value none).isSome then (.fail, st1)
        else
          let lv1 := lv + step
          match set_value_for_variable st1.scopes name (some (.num lv1)) with
          | none => (.fail, st1)
          | some ss => loopIter fuel { st1 with scopes := ss } children name step upper lv1
      | other => other
    else
      match close_scope st.scopes with
      | none => (.fail, st)
      | some ss => (.ok none, { st with scopes := ss })

/-- Body loop of one iteration (lines 583-591): interpret every
statement after the first two children, aborting on the first
failure. -/
def bodyRun : Nat → State → List ParseResult → IOut
  | 0, st, _ => (.nofuel, st)
  | _ + 1, st, [] => (.ok none, st)
  | fuel + 1, st, stmt :: rest =>
    match interpret_parse_result fuel st stmt with
    | (.ok _, st1) => bodyRun fuel st1 rest
    | other => other

/-- `Interpreter::interpret_function` (lines 1242-1297) restricted to
the embedded builtin `print`; the remaining builtins are the
out-of-scope canvas/math collaborators, and any other name is the
"No function definition found" failure. -/
def interpret_function : Nat → State → ParseResult → IOut
  | 0, st, _ => (.nofuel, st)
  | fuel + 1, st, fc =>
    if fc.type ≠ .Function then (.fail, st)
    else if fc.value = "print".data then function_print fuel st fc
    else (.fail, st)

/-- `Interpreter::function_print` (`interpreter_functions.cpp`, lines
359-394): evaluate the arguments, require a string for `message`, and
append it to stdout. -/
def function_print : Nat → State → ParseResult → IOut
  | 0, st, _ => (.nofuel, st)
  | fuel + 1, st, fc =>
    match interpret_arguments_from_function_call fuel st fc [] with
    | (.ok (true, args), st1) =>
      match argument_value_for_parameter args "message".data with
      | some (some (.str s)) => (.ok none, { st1 with output := st1.output ++ [s] })
      | _ => (.fail, st1)
    | (.ok (false, _), st1) => (.fail, st1)
    | (.fail, st1) => (.fail, st1)
    | (.ub, st1) => (.ub, st1)
    | (.nofuel, st1) => (.nofuel, st1)

/-- `Interpreter::interpret_arguments_from_function_call` (lines
1301-1419): gather the named argument values, evaluating only the
parameters in the filter (all of them when the filter is empty).  The
C++ `bool` return is part of the result because one caller ignores
it. -/
def interpret_arguments_from_function_call :
    Nat → State → ParseResult → List (List Char) → Res (Bool × ArgsMap) × State
  | 0, st, _, _ => (.nofuel, st)
  | fuel + 1, st, fc, filter =>
    if fc.type ≠ .Function ∧ fc.type ≠ .Initialization then (.ok (false, []), st)
    else if fc.children.length ≠ 1 then (.ok (false, []), st)
    else
      match fc.children with
      | [al] =>
        if al.type ≠ .ArgumentList then (.ok (false, []), st)
        else argsLoop fuel st al.children filter []
      | _ => (.ok (false, []), st)

/-- Argument loop of `interpret_arguments_from_function_call` (lines
1350-1411). -/
def argsLoop : Nat → State → List ParseResult → List (List Char) → ArgsMap →
    Res (Bool × ArgsMap) × State
  | 0, st, _, _, _ => (.nofuel, st)
  | _ + 1, st, [], _, acc => (.ok (true, acc), st)
  | fuel + 1, st, arg :: rest, filter, acc =>
    if arg.type ≠ .Argument then (.ok (false, acc), st)
    else if filter.isEmpty || filter.any (fun p => p = arg.value) then
      match arg.children with
      | [a0] =>
        match interpret_parse_result fuel st a0 with
        | (.ok v, st1) => argsLoop fuel st1 rest filter (argsInsert acc arg.value v)
        | (.fail, st1) => (.ok (false, acc), st1)
        | (.ub, st1) => (.ub, st1)
        | (.nofuel, st1) => (.nofuel, st1)
      | _ => (.ok (false, acc), st)
    else argsLoop fuel st rest filter acc

/-- `Interpreter::interpret_initialization` (lines 333-428): evaluate
the argument list (the `bool` return of the argument gatherer is
ignored, line 390), then build the `Pol` value from the `r` and `phi`
numbers; any other initializer name fails. -/
def interpret_initialization : Nat → State → ParseResult → IOut
  | 0, st, _ => (.nofuel, st)
  | fuel + 1, st, init =>
    if init.type ≠ .Initialization then (.fail, st)
    else if init.children.length ≠ 1 then (.fail, st)
    else
      match init.children with
      | [al] =>
        if al.type ≠ .ArgumentList then (.fail, st)
        else
          match interpret_arguments_from_function_call fuel st init [] with
          | (.ok (_, args), st1) =>
            if init.value = "Pol".data then
              match number_value_for_parameter args "r".data,
                    number_value_for_parameter args "phi".data with
              | some r, some phi => (.ok (some (.pol r phi)), st1)
              | _, _ => (.fail, st1)
            else (.fail, st1)
          | (.fail, st1) => (.fail, st1)
          | (.ub, st1) => (.ub, st1)
          | (.nofuel, st1) => (.nofuel, st1)
      | _ => (.fail, st)

end

/-- `Interpreter::interpret_code` (lines 73-92): interpret the parsed
statements in order, aborting on the first failure; the result is the
last statement's result. -/
def interpret_code : Nat → State → List ParseResult → IOut
  | 0, st, _ => (.nofuel, st)
  | _ + 1, st, [] => (.ok none, st)
  | fuel + 1, st, [stmt] => interpret_parse_result fuel st stmt
  | fuel + 1, st, stmt :: rest =>
    match interpret_parse_result fuel st stmt with
    | (.ok _, st1) => interpret_code fuel st1 rest
    | other => other

/-- The whole pipeline as driven by `main.cpp`: parse all lines, then
interpret the parsed program from a fresh state. -/
def run_program (fuel : Nat) (lines : List (List Char)) : IOut :=
  match parse_code fuel lines with
  | .ok prog => interpret_code fuel State.initial prog
  | .fail => (.fail, State.initial)
  | .ub => (.ub, State.initial)
  | .nofuel => (.nofuel, State.initial)

/-! ## Scope discipline

The theorems about scope behaviour quantify over parse trees in which
every `Pol` initialization carries pairwise-distinct argument names
drawn from `Pol`'s declared parameters — exactly the shape
`parse_argument_list` can produce.  The restriction matters: the
interpreter ignores the `bool` returned by
`interpret_arguments_from_function_call` inside
`interpret_initialization`, so a hand-crafted tree with a duplicated
or extraneous argument name whose evaluation fails halfway could make
a `Pol` construction succeed while carrying a scope leaked by the
failed argument. -/

/-- Membership of a value among the node values of a list. -/
def valueMem (v : List Char) : List ParseResult → Bool
  | [] => false
  | a :: rest => if a.value = v then true else valueMem v rest

/-- Pairwise distinctness of node values. -/
def distinctVals : List ParseResult → Bool
  | [] => true
  | a :: rest => !valueMem a.value rest && distinctVals rest

/-- The node value is one of `Pol`'s declared parameter names. -/
def polName (a : ParseResult) : Bool :=
  if a.value = "r".data then true
  else if a.value = "phi".data then true
  else false

/-- Argument names of a `Pol` call: pairwise distinct and declared. -/
def polArgsOk (args : List ParseResult) : Bool :=
  distinctVals args && args.all polName

mutual

/-- Well-formed call shapes (see the section comment): within every
`Initialization` node named `Pol` whose single child is the argument
list, the argument names are distinct declared parameter names. -/
def wfNode : ParseResult → Bool
  | .mk t v cs =>
    (if t = .Initialization then
       if v = "Pol".data then
         match cs with
         | [al] => polArgsOk al.children
         | _ => true
       else true
     else true) && wfChildren cs

/-- Conjunction of `wfNode` over a child list. -/
def wfChildren : List ParseResult → Bool
  | [] => true
  | c :: rest => wfNode c && wfChildren rest

end

/-- A single token as `tokenize_string` hands it to the parser: the
text with the type `type_of_string` assigns it, no children. -/
def argTok (s : List Char) : Token := Token.mk s (type_of_string s) []

/-- Scope-stack discipline of one embedded call from stack `ss`: the
scopes below the top of `ss` are untouched, the top may change, and
extra scopes can remain above it only when the call did not return
`true`. -/
def ScopesQ {α : Type} (ss : List Scope) (r : Res α) (st' : State) : Prop :=
  ∃ top extra, st'.scopes = ss.dropLast ++ top :: extra ∧
    (∀ a, r = Res.ok a → extra = [])

/-- Scope-stack discipline of the loop iteration loop: it owns the top
scope of `ss` and pops it exactly when it succeeds. -/
def LoopQ {α : Type} (ss : List Scope) (r : Res α) (st' : State) : Prop :=
  ∃ extra, st'.scopes = ss.dropLast ++ extra ∧ (∀ a, r = Res.ok a → extra = [])

/-- Scope-stack discipline of the argument gatherer: like `ScopesQ`
for a `true` return; a `false` return may leak scopes only when the
failed argument left one of `Pol`'s parameters without a value. -/
def ArgsQ (ss : List Scope) (r : Res (Bool × ArgsMap)) (st' : State) : Prop :=
  ∃ top extra, st'.scopes = ss.dropLast ++ top :: extra ∧
    (∀ m, r = .ok (true, m) → extra = []) ∧
    (∀ m, r = .ok (false, m) → extra = [] ∨
      argument_value_for_parameter m "r".data = none ∨
      argument_value_for_parameter m "phi".data = none)

/-- Weak form of `ArgsQ` without the `false`-return analysis. -/
def ArgsQweak (ss : List Scope) (r : Res (Bool × ArgsMap)) (st' : State) : Prop :=
  ∃ top extra, st'.scopes = ss.dropLast ++ top :: extra ∧
    (∀ m, r = .ok (true, m) → extra = [])

theorem updateLastScope_eq (f : Scope → Scope) :
    ∀ (ss : List Scope) (h : ss ≠ []),
      updateLastScope ss f = ss.dropLast ++ [f (ss.getLast h)]
  | [], h => absurd rfl h
  | [_], _ => rfl
  | sc :: sc2 :: rest, _ => by
    have ih := updateLastScope_eq f (sc2 :: rest) (by simp)
    simp only [updateLastScope, ih]
    rfl

/-- A call that leaves the scope stack unchanged satisfies `ScopesQ`. -/
theorem scopesQ_self {α : Type} {ss : List Scope} (h : ss ≠ []) (r : Res α)
    {st' : State} (he : st'.scopes = ss) : ScopesQ ss r st' :=
  ⟨ss.getLast h, [], by rw [he]; exact (List.dropLast_append_getLast h).symm,
   fun _ _ => rfl⟩

/-- A call that only rewrites the current scope satisfies `ScopesQ`. -/
theorem scopesQ_update {α : Type} {ss : List Scope} (h : ss ≠ []) (r : Res α)
    {st' : State} (f : Scope → Scope)
    (he : st'.scopes = updateLastScope ss f) : ScopesQ ss r st' :=
  ⟨f (ss.getLast h), [], by rw [he, updateLastScope_eq f ss h], fun _ _ => rfl⟩

theorem ScopesQ.ne {α : Type} {ss : List Scope} {r : Res α} {st' : State}
    (q : ScopesQ ss r st') : st'.scopes ≠ [] := by
  obtain ⟨top, extra, he, -⟩ := q
  simp [he]

/-- Composition: a successful first call followed by any second call. -/
theorem ScopesQ.trans_ok {α β : Type} {ss : List Scope} {v : α} {st1 : State}
    (q1 : ScopesQ ss (Res.ok v) st1) {r : Res β} {st2 : State}
    (q2 : ScopesQ st1.scopes r st2) : ScopesQ ss r st2 := by
  obtain ⟨t1, e1, h1, hok⟩ := q1
  obtain rfl : e1 = [] := hok v rfl
  obtain ⟨t2, e2, h2, hok2⟩ := q2
  exact ⟨t2, e2, by rw [h2, h1]; simp, hok2⟩

theorem wfNode_children {t : Ty} {v : List Char} {cs : List ParseResult}
    (h : wfNode (.mk t v cs) = true) : wfChildren cs = true := by
  unfold wfNode at h
  exact ((Bool.and_eq_true _ _).mp h).2

theorem wfChildren_mem : ∀ {cs : List ParseResult}, wfChildren cs = true →
    ∀ c ∈ cs, wfNode c = true
  | [], _, _, hc => nomatch hc
  | c0 :: rest, h, c, hc => by
    unfold wfChildren at h
    rcases (Bool.and_eq_true _ _).mp h with ⟨h0, h1⟩
    rcases hc with _ | hc
    · exact h0
    · exact wfChildren_mem h1 c (by assumption)

theorem wfChildren_of_mem : ∀ {cs : List ParseResult},
    (∀ c ∈ cs, wfNode c = true) → wfChildren cs = true
  | [], _ => rfl
  | c0 :: rest, h => by
    unfold wfChildren
    exact (Bool.and_eq_true _ _).mpr ⟨h c0 (by simp), wfChildren_of_mem fun c hc => h c (by simp [hc])⟩

/-- State preservation of the non-recursive interpreters. -/
theorem interpret_number_snd (st : State) (input : ParseResult) :
    (interpret_number st input).2 = st := by
  unfold interpret_number
  split <;> [skip; split] <;> simp

theorem interpret_variable_snd (st : State) (input : ParseResult) :
    (interpret_variable st input).2 = st := by
  unfold interpret_variable
  split <;> simp

theorem interpret_unknown_snd (st : State) (input : ParseResult) :
    (interpret_unknown st input).2 = st := by
  unfold interpret_unknown
  split
  · rfl
  · split
    · rfl
    · exact interpret_variable_snd st input

theorem pair_eq {α β : Type} {a c : α} {b d : β} (h : (a, b) = (c, d)) :
    a = c ∧ b = d := by
  simpa using h

/-- A successful call's `ScopesQ` transfers to any result at the same
final state (used when a later check fails without moving the state). -/
theorem ScopesQ.cast {α β : Type} {ss : List Scope} {v : α} {st1 : State}
    (q : ScopesQ ss (Res.ok v) st1) (r : Res β) : ScopesQ ss r st1 := by
  obtain ⟨top, e, hsh, hok⟩ := q
  obtain rfl := hok v rfl
  exact ⟨top, [], hsh, fun _ _ => rfl⟩

/-- `ScopesQ` for a non-`ok` result whose final stack is the original
one extended above the top. -/
theorem scopesQ_leak {α : Type} {ss : List Scope} (h : ss ≠ []) {r : Res α}
    (hnok : ∀ a, r ≠ Res.ok a) {st' : State} {t : List Scope}
    (he : st'.scopes = ss ++ t) : ScopesQ ss r st' := by
  refine ⟨ss.getLast h, t, ?_, ?_⟩
  · rw [he]
    conv_lhs => rw [← List.dropLast_append_getLast h]
    simp
  · intro a ha
    exact absurd ha (hnok a)

theorem define_variable_eq {ss : List Scope} {k : List Char} {v : Option Value}
    {ss2 : List Scope} (h : define_variable_with_value ss k v = some ss2) :
    ∃ w, v = some w ∧ ss2 = updateLastScope ss (fun sc => scopeInsert sc k w) := by
  unfold define_variable_with_value at h
  split at h
  · cases h
  · match v, h with
    | some w, h => exact ⟨w, rfl, (Option.some.injEq .. ▸ h).symm⟩

theorem set_value_eq {ss : List Scope} {k : List Char} {v : Option Value}
    {ss2 : List Scope} (h : set_value_for_variable ss k v = some ss2) :
    ∃ w, v = some w ∧ ss2 = updateLastScope ss (fun sc => scopeInsert sc k w) := by
  unfold set_value_for_variable at h
  split at h
  · cases h
  · match v, h with
    | some w, h => exact ⟨w, rfl, (Option.some.injEq .. ▸ h).symm⟩

theorem wf_mem_children {input : ParseResult} (h : wfNode input = true) :
    ∀ c ∈ input.children, wfNode c = true := by
  cases input with
  | mk t v cs => exact wfChildren_mem (wfNode_children h)

theorem loopQ_nofuel {ss : List Scope} (h : ss ≠ []) {st' : State}
    (he : st'.scopes = ss) : LoopQ ss (Res.nofuel : Res (Option Value)) st' := by
  refine ⟨[ss.getLast h], ?_, ?_⟩
  · rw [he]
    exact (List.dropLast_append_getLast h).symm
  · intro v hv
    cases hv

theorem argsQ_nofuel {ss : List Scope} (h : ss ≠ []) {st' : State}
    (he : st'.scopes = ss) :
    ArgsQweak ss Res.nofuel st' ∧ ArgsQ ss Res.nofuel st' := by
  constructor
  · refine ⟨ss.getLast h, [], ?_, ?_⟩
    · rw [he]
      exact (List.dropLast_append_getLast h).symm
    · intro m hm
      cases hm
  · refine ⟨ss.getLast h, [], ?_, ?_, ?_⟩
    · rw [he]
      exact (List.dropLast_append_getLast h).symm
    · intro m hm
      cases hm
    · intro m hm
      cases hm

/-- The final stack of a successful call: the shared prefix plus exactly
one top scope. -/
theorem ScopesQ.ok_shape {α : Type} {ss : List Scope} {v : α} {st1 : State}
    (q : ScopesQ ss (Res.ok v) st1) : ∃ top, st1.scopes = ss.dropLast ++ [top] := by
  obtain ⟨top, extra, hsh, hok⟩ := q
  obtain rfl := hok v rfl
  exact ⟨top, hsh⟩

/-- `ScopesQ` from an explicit exact one-top stack shape. -/
theorem scopesQ_of_shape {α : Type} {ss : List Scope} {top : Scope} {st' : State}
    (he : st'.scopes = ss.dropLast ++ [top]) (r : Res α) : ScopesQ ss r st' :=
  ⟨top, [], he, fun _ _ => rfl⟩

/-- Discharging a pushed scope: a non-`ok` call below a push still
satisfies the caller's discipline. -/
theorem scopesQ_unpush {α : Type} {ss : List Scope} (h : ss ≠ []) {e : Scope}
    {r : Res α} (hnok : ∀ a, r ≠ Res.ok a) {st' : State}
    (q : ScopesQ (ss ++ [e]) r st') : ScopesQ ss r st' := by
  obtain ⟨top, extra, hsh, -⟩ := q
  have he2 : st'.scopes = ss ++ (top :: extra) := by
    rw [hsh]
    simp
  exact scopesQ_leak h hnok he2

/-- Rewriting the last scope keeps the prefix of a pushed stack. -/
theorem updateLastScope_concat (ss : List Scope) (e : Scope) (f : Scope → Scope) :
    updateLastScope (ss ++ [e]) f = ss ++ [f e] := by
  rw [updateLastScope_eq f (ss ++ [e]) (by simp)]
  simp

/-- `LoopQ` from `ScopesQ` for a result that is not `ok`. -/
theorem loopQ_of_scopesQ {ss : List Scope} {r : Res (Option Value)}
    (hnok : ∀ a, r ≠ Res.ok a) {st' : State} (q : ScopesQ ss r st') :
    LoopQ ss r st' := by
  obtain ⟨top, extra, hsh, -⟩ := q
  exact ⟨top :: extra, hsh, fun a ha => absurd ha (hnok a)⟩

/-- `LoopQ` only depends on the stack below the top scope. -/
theorem LoopQ.congr {ss ss2 : List Scope} (h : ss2.dropLast = ss.dropLast)
    {r : Res (Option Value)} {st' : State} (q : LoopQ ss2 r st') :
    LoopQ ss r st' := by
  obtain ⟨extra, hsh, hok⟩ := q
  exact ⟨extra, by rw [hsh, h], hok⟩

/-- The loop's conclusion from the iteration loop's discipline over the
pushed scope. -/
theorem loop_conclusion {ss : List Scope} (h : ss ≠ []) {e : Scope}
    {r : Res (Option Value)} {st' : State} (q : LoopQ (ss ++ [e]) r st') :
    ScopesQ ss r st' ∧ (∀ v, r = Res.ok v → st'.scopes = ss) := by
  obtain ⟨extra, hsh, hok⟩ := q
  have hsh2 : st'.scopes = ss ++ extra := by
    rw [hsh]
    simp
  constructor
  · cases r with
    | ok v =>
      obtain rfl := hok v rfl
      exact scopesQ_self h _ (by simpa using hsh2)
    | fail => exact scopesQ_leak h (fun a ha => Res.noConfusion ha) hsh2
    | ub => exact scopesQ_leak h (fun a ha => Res.noConfusion ha) hsh2
    | nofuel => exact scopesQ_leak h (fun a ha => Res.noConfusion ha) hsh2
  · intro v hv
    obtain rfl := hok v hv
    simpa using hsh2

/-- `close_scope`'s success pops exactly the top scope. -/
theorem close_scope_eq {ss ss2 : List Scope} (h : close_scope ss = some ss2) :
    ss2 = ss.dropLast := by
  unfold close_scope at h
  split at h
  · cases h
  · exact (Option.some.injEq .. ▸ h).symm

/-- `ArgsQweak` from an explicit stack shape for a result that is not a
`true` return. -/
theorem argsQweak_shape {ss : List Scope} {top : Scope} {extra : List Scope}
    {st' : State} (he : st'.scopes = ss.dropLast ++ top :: extra)
    {r : Res (Bool × ArgsMap)} (hnt : ∀ m, r ≠ Res.ok (true, m)) :
    ArgsQweak ss r st' :=
  ⟨top, extra, he, fun m hm => absurd hm (hnt m)⟩

/-- `ArgsQweak` from an exact one-top stack shape, any result. -/
theorem argsQweak_ok_shape {ss : List Scope} {top : Scope} {st' : State}
    (he : st'.scopes = ss.dropLast ++ [top]) (r : Res (Bool × ArgsMap)) :
    ArgsQweak ss r st' :=
  ⟨top, [], he, fun _ _ => rfl⟩

theorem ArgsQweak.shape {ss : List Scope} {r : Res (Bool × ArgsMap)} {st' : State}
    (q : ArgsQweak ss r st') :
    ∃ top extra, st'.scopes = ss.dropLast ++ top :: extra := by
  obtain ⟨top, extra, hsh, -⟩ := q
  exact ⟨top, extra, hsh⟩

theorem ArgsQweak.true_shape {ss : List Scope} {m : ArgsMap} {st1 : State}
    (q : ArgsQweak ss (Res.ok (true, m)) st1) :
    ∃ top, st1.scopes = ss.dropLast ++ [top] := by
  obtain ⟨top, extra, hsh, hok⟩ := q
  obtain rfl := hok m rfl
  exact ⟨top, hsh⟩

/-- `ArgsQ` from an explicit stack shape with the `false`-return
analysis supplied. -/
theorem argsQ_shape {ss : List Scope} {top : Scope} {extra : List Scope}
    {st' : State} (he : st'.scopes = ss.dropLast ++ top :: extra)
    {r : Res (Bool × ArgsMap)} (hnt : ∀ m, r ≠ Res.ok (true, m))
    (hfalse : ∀ m, r = Res.ok (false, m) → extra = [] ∨
      argument_value_for_parameter m "r".data = none ∨
      argument_value_for_parameter m "phi".data = none) :
    ArgsQ ss r st' :=
  ⟨top, extra, he, fun m hm => absurd hm (hnt m), hfalse⟩

/-- `ArgsQ` from an exact one-top stack shape, any result. -/
theorem argsQ_ok_shape {ss : List Scope} {top : Scope} {st' : State}
    (he : st'.scopes = ss.dropLast ++ [top]) (r : Res (Bool × ArgsMap)) :
    ArgsQ ss r st' :=
  ⟨top, [], he, fun _ _ => rfl, fun _ _ => Or.inl rfl⟩

/-- Composition of a successful interpretation with the argument
discipline. -/
theorem ScopesQ.trans_argsQweak {ss : List Scope} {v : Option Value} {st1 : State}
    (q1 : ScopesQ ss (Res.ok v) st1) {r : Res (Bool × ArgsMap)} {st2 : State}
    (q2 : ArgsQweak st1.scopes r st2) : ArgsQweak ss r st2 := by
  obtain ⟨top1, hsh1⟩ := q1.ok_shape
  obtain ⟨top2, extra2, hsh2, hok2⟩ := q2
  refine ⟨top2, extra2, ?_, hok2⟩
  rw [hsh2, hsh1]
  simp

theorem ScopesQ.trans_argsQ {ss : List Scope} {v : Option Value} {st1 : State}
    (q1 : ScopesQ ss (Res.ok v) st1) {r : Res (Bool × ArgsMap)} {st2 : State}
    (q2 : ArgsQ st1.scopes r st2) : ArgsQ ss r st2 := by
  obtain ⟨top1, hsh1⟩ := q1.ok_shape
  obtain ⟨top2, extra2, hsh2, hok2, hfalse2⟩ := q2
  refine ⟨top2, extra2, ?_, hok2, hfalse2⟩
  rw [hsh2, hsh1]
  simp

/-- A declared parameter name of `Pol` is `r` or `phi`. -/
theorem polName_cases {a : ParseResult} (h : polName a = true) :
    a.value = "r".data ∨ a.value = "phi".data := by
  unfold polName at h
  split at h
  · exact Or.inl (by assumption)
  · split at h
    · exact Or.inr (by assumption)
    · cases h

theorem valueMem_false {v : List Char} : ∀ {rest : List ParseResult},
    valueMem v rest = false → ∀ a ∈ rest, a.value ≠ v
  | [], _, a, ha => nomatch ha
  | b :: rest, h, a, ha => by
    unfold valueMem at h
    split at h
    · cases h
    · rcases ha with _ | ha
      · assumption
      · exact valueMem_false h a (by assumption)

theorem distinctVals_cons {a : ParseResult} {rest : List ParseResult}
    (h : distinctVals (a :: rest) = true) :
    valueMem a.value rest = false ∧ distinctVals rest = true := by
  unfold distinctVals at h
  rcases (Bool.and_eq_true _ _).mp h with ⟨h1, h2⟩
  exact ⟨by simpa using h1, h2⟩

/-- Inserting under a different key leaves a lookup unchanged. -/
theorem argsInsert_lookup_ne {k k' : List Char} {v : Option Value} (h : k' ≠ k) :
    ∀ m : ArgsMap, argument_value_for_parameter (argsInsert m k v) k' =
      argument_value_for_parameter m k'
  | [] => by
    simp only [argsInsert, argument_value_for_parameter]
    rw [if_neg (fun hk => h hk.symm)]
  | (k0, v0) :: rest => by
    simp only [argsInsert]
    split
    · rename_i hk0
      subst hk0
      simp only [argument_value_for_parameter]
      rw [if_neg (fun hk => h hk.symm), if_neg (fun hk => h hk.symm)]
    · simp only [argument_value_for_parameter]
      split
      · rfl
      · exact argsInsert_lookup_ne h rest

/-- A numeric parameter read implies the argument lookup succeeded. -/
theorem number_value_lookup {args : ArgsMap} {p : List Char} {q : ℚ}
    (h : number_value_for_parameter args p = some q) :
    argument_value_for_parameter args p ≠ none := by
  unfold number_value_for_parameter at h
  intro hn
  rw [hn] at h
  cases h

/-- The argument names of a well-formed `Pol` initialization. -/
theorem wf_pol_args {fc al : ParseResult} (hwf : wfNode fc = true)
    (ht : fc.type = Ty.Initialization) (hv : fc.value = "Pol".data)
    (hc : fc.children = [al]) :
    distinctVals al.children = true ∧ al.children.all polName = true := by
  cases fc with
  | mk t v cs =>
    obtain rfl : t = Ty.Initialization := ht
    obtain rfl : v = "Pol".data := hv
    obtain rfl : cs = [al] := hc
    unfold wfNode at hwf
    rcases (Bool.and_eq_true _ _).mp hwf with ⟨h1, -⟩
    rw [if_pos rfl, if_pos rfl] at h1
    exact (Bool.and_eq_true _ _).mp h1

/-- Both loop conclusions for a failing return that leaves the stack
unchanged. -/
theorem loop_fail_self {ss : List Scope} (h : ss ≠ []) {st' : State}
    (he : st'.scopes = ss) :
    ScopesQ ss (Res.fail : Res (Option Value)) st' ∧
      (∀ v, (Res.fail : Res (Option Value)) = Res.ok v → st'.scopes = ss) :=
  ⟨scopesQ_self h _ he, fun _ hv => Res.noConfusion hv⟩

/-- Both loop conclusions for a failing return over a pushed stack. -/
theorem loop_fail_push {ss : List Scope} (h : ss ≠ []) {t : List Scope}
    {st' : State} (he : st'.scopes = ss ++ t) :
    ScopesQ ss (Res.fail : Res (Option Value)) st' ∧
      (∀ v, (Res.fail : Res (Option Value)) = Res.ok v → st'.scopes = ss) :=
  ⟨scopesQ_leak h (fun _ ha => Res.noConfusion ha) he,
    fun _ hv => Res.noConfusion hv⟩

/-- Both argument conclusions for a return with the stack unchanged
(the caller form, with two premises on the strong part). -/
theorem args_conclusion_self {ss : List Scope} (h : ss ≠ []) {st' : State}
    (he : st'.scopes = ss) (r : Res (Bool × ArgsMap)) {P Q : Prop} :
    ArgsQweak ss r st' ∧ (P → Q → ArgsQ ss r st') := by
  constructor
  · exact ⟨ss.getLast h, [],
      by rw [he]; exact (List.dropLast_append_getLast h).symm, fun _ _ => rfl⟩
  · intro _ _
    exact ⟨ss.getLast h, [],
      by rw [he]; exact (List.dropLast_append_getLast h).symm, fun _ _ => rfl,
      fun _ _ => Or.inl rfl⟩

/-- Both argument conclusions for a return with the stack unchanged
(the loop form, with three premises on the strong part). -/
theorem args_conclusion_self3 {ss : List Scope} (h : ss ≠ []) {st' : State}
    (he : st'.scopes = ss) (r : Res (Bool × ArgsMap)) {P Q R : Prop} :
    ArgsQweak ss r st' ∧ (P → Q → R → ArgsQ ss r st') := by
  constructor
  · exact ⟨ss.getLast h, [],
      by rw [he]; exact (List.dropLast_append_getLast h).symm, fun _ _ => rfl⟩
  · intro _ _ _
    exact ⟨ss.getLast h, [],
      by rw [he]; exact (List.dropLast_append_getLast h).symm, fun _ _ => rfl,
      fun _ _ => Or.inl rfl⟩

/-- Propagating a non-`ok` result through the argument gatherer's
stack shape. -/
theorem scopesQ_fail_of_argsQweak {ss : List Scope} {r0 : Res (Bool × ArgsMap)}
    {st1 : State} (q : ArgsQweak ss r0 st1) {α : Type} {r : Res α}
    (hnok : ∀ a, r ≠ Res.ok a) {st' : State} (he : st'.scopes = st1.scopes) :
    ScopesQ ss r st' := by
  obtain ⟨top, extra, hsh, -⟩ := q
  exact ⟨top, extra, by rw [he, hsh], fun a ha => absurd ha (hnok a)⟩

/-- The grandchildren of a single-child node are well formed. -/
theorem wf_grandchild {fc al : ParseResult} (hwf : wfNode fc = true)
    (hc : fc.children = [al]) : ∀ c ∈ al.children, wfNode c = true :=
  wf_mem_children (wf_mem_children hwf al (by rw [hc]; simp))

/-- Scope discipline of the embedded interpreter: one simultaneous
induction over fuel covering every mutually recursive function.  Each
conjunct says that a call from a non-empty scope stack preserves the
scopes below the current top, touches at most the top on a `true`
return, and can leave extra scopes above it only on error returns
(`interpret_loop` restores the stack exactly on success, and the
iteration loop pops exactly its own scope). -/
theorem scope_discipline : ∀ fuel : Nat,
    (∀ st input r st', st.scopes ≠ [] → wfNode input = true →
      interpret_parse_result fuel st input = (r, st') → ScopesQ st.scopes r st') ∧
    (∀ st input r st', st.scopes ≠ [] → wfNode input = true →
      interpret_assignment fuel st input = (r, st') → ScopesQ st.scopes r st') ∧
    (∀ st input r st', st.scopes ≠ [] → wfNode input = true →
      interpret_string fuel st input = (r, st') → ScopesQ st.scopes r st') ∧
    (∀ st parts acc r st', st.scopes ≠ [] → (∀ c ∈ parts, wfNode c = true) →
      stringParts fuel st parts acc = (r, st') → ScopesQ st.scopes r st') ∧
    (∀ st input r st', st.scopes ≠ [] → wfNode input = true →
      interpret_expression fuel st input = (r, st') → ScopesQ st.scopes r st') ∧
    (∀ st children idx remaining r st', st.scopes ≠ [] →
      (∀ c ∈ children, wfNode c = true) → (∀ c ∈ remaining, wfNode c = true) →
      exprPass1 fuel st children idx remaining = (r, st') → ScopesQ st.scopes r st') ∧
    (∀ st remaining r st', st.scopes ≠ [] → (∀ c ∈ remaining, wfNode c = true) →
      exprTail fuel st remaining = (r, st') → ScopesQ st.scopes r st') ∧
    (∀ st remaining idx acc op r st', st.scopes ≠ [] →
      (∀ c ∈ remaining, wfNode c = true) →
      exprPass2 fuel st remaining idx acc op = (r, st') → ScopesQ st.scopes r st') ∧
    (∀ st input r st', st.scopes ≠ [] → wfNode input = true →
      interpret_loop fuel st input = (r, st') →
      ScopesQ st.scopes r st' ∧ (∀ v, r = Res.ok v → st'.scopes = st.scopes)) ∧
    (∀ st children name step upper lv r st', st.scopes ≠ [] →
      (∀ c ∈ children, wfNode c = true) →
      loopIter fuel st children name step upper lv = (r, st') →
      LoopQ st.scopes r st') ∧
    (∀ st stmts r st', st.scopes ≠ [] → (∀ c ∈ stmts, wfNode c = true) →
      bodyRun fuel st stmts = (r, st') → ScopesQ st.scopes r st') ∧
    (∀ st fc r st', st.scopes ≠ [] → wfNode fc = true →
      interpret_function fuel st fc = (r, st') → ScopesQ st.scopes r st') ∧
    (∀ st fc r st', st.scopes ≠ [] → wfNode fc = true →
      function_print fuel st fc = (r, st') → ScopesQ st.scopes r st') ∧
    (∀ st fc filter r st', st.scopes ≠ [] → wfNode fc = true →
      interpret_arguments_from_function_call fuel st fc filter = (r, st') →
      ArgsQweak st.scopes r st' ∧
        (fc.type = .Initialization → fc.value = "Pol".data → ArgsQ st.scopes r st')) ∧
    (∀ st args filter acc r st', st.scopes ≠ [] → (∀ c ∈ args, wfNode c = true) →
      argsLoop fuel st args filter acc = (r, st') →
      ArgsQweak st.scopes r st' ∧
        (distinctVals args = true → args.all polName = true →
          (∀ a ∈ args, argument_value_for_parameter acc a.value = none) →
          ArgsQ st.scopes r st')) ∧
    (∀ st init r st', st.scopes ≠ [] → wfNode init = true →
      interpret_initialization fuel st init = (r, st') → ScopesQ st.scopes r st') := by
  intro fuel
  induction fuel with
  | zero =>
    have hpair : ∀ {α : Type} (r0 r : Res α) (s0 s' : State),
        ((r0, s0) : Res α × State) = (r, s') → r0 = r ∧ s0 = s' := by
      intro α r0 r s0 s' h
      simpa using h
    refine ⟨?_, ?_, ?_, ?_, ?_, ?_, ?_, ?_, ?_, ?_, ?_, ?_, ?_, ?_, ?_, ?_⟩
    · intro st input r st' hne _ hE
      obtain ⟨rfl, rfl⟩ := hpair _ _ _ _ hE.symm
      exact scopesQ_self hne _ rfl
    · intro st input r st' hne _ hE
      obtain ⟨rfl, rfl⟩ := hpair _ _ _ _ hE.symm
      exact scopesQ_self hne _ rfl
    · intro st input r st' hne _ hE
      obtain ⟨rfl, rfl⟩ := hpair _ _ _ _ hE.symm
      exact scopesQ_self hne _ rfl
    · intro st parts acc r st' hne _ hE
      obtain ⟨rfl, rfl⟩ := hpair _ _ _ _ hE.symm
      exact scopesQ_self hne _ rfl
    · intro st input r st' hne _ hE
      obtain ⟨rfl, rfl⟩ := hpair _ _ _ _ hE.symm
      exact scopesQ_self hne _ rfl
    · intro st children idx remaining r st' hne _ _ hE
      obtain ⟨rfl, rfl⟩ := hpair _ _ _ _ hE.symm
      exact scopesQ_self hne _ rfl
    · intro st remaining r st' hne _ hE
      obtain ⟨rfl, rfl⟩ := hpair _ _ _ _ hE.symm
      exact scopesQ_self hne _ rfl
    · intro st remaining idx acc op r st' hne _ hE
      obtain ⟨rfl, rfl⟩ := hpair _ _ _ _ hE.symm
      exact scopesQ_self hne _ rfl
    · intro st input r st' hne _ hE
      obtain ⟨rfl, rfl⟩ := hpair _ _ _ _ hE.symm
      exact ⟨scopesQ_self hne _ rfl, fun v h => nomatch h⟩
    · intro st children name step upper lv r st' hne _ hE
      obtain ⟨rfl, rfl⟩ := hpair _ _ _ _ hE.symm
      exact loopQ_nofuel hne rfl
    · intro st stmts r st' hne _ hE
      obtain ⟨rfl, rfl⟩ := hpair _ _ _ _ hE.symm
      exact scopesQ_self hne _ rfl
    · intro st fc r st' hne _ hE
      obtain ⟨rfl, rfl⟩ := hpair _ _ _ _ hE.symm
      exact scopesQ_self hne _ rfl
    · intro st fc r st' hne _ hE
      obtain ⟨rfl, rfl⟩ := hpair _ _ _ _ hE.symm
      exact scopesQ_self hne _ rfl
    · intro st fc filter r st' hne _ hE
      obtain ⟨rfl, rfl⟩ := hpair _ _ _ _ hE.symm
      exact ⟨(argsQ_nofuel hne rfl).1, fun _ _ => (argsQ_nofuel hne rfl).2⟩
    · intro st args filter acc r st' hne _ hE
      obtain ⟨rfl, rfl⟩ := hpair _ _ _ _ hE.symm
      exact ⟨(argsQ_nofuel hne rfl).1, fun _ _ _ => (argsQ_nofuel hne rfl).2⟩
    · intro st init r st' hne _ hE
      obtain ⟨rfl, rfl⟩ := hpair _ _ _ _ hE.symm
      exact scopesQ_self hne _ rfl
  | succ fuel ih =>
    obtain ⟨ihP, ihA, ihS, ihSP, ihE, ihE1, ihET, ihE2, ihL, ihLI, ihB, ihF,
      ihFP, ihIA, ihAL, ihI⟩ := ih
    refine ⟨?_, ?_, ?_, ?_, ?_, ?_, ?_, ?_, ?_, ?_, ?_, ?_, ?_, ?_, ?_, ?_⟩
    -- interpret_parse_result: dispatch
    · intro st input r st' hne hwf hE
      simp only [interpret_parse_result] at hE
      split at hE
      · obtain ⟨rfl, rfl⟩ := pair_eq hE.symm
        exact scopesQ_self hne _ rfl
      · split at hE
        · obtain ⟨rfl, rfl⟩ := pair_eq hE.symm
          exact scopesQ_self hne _ rfl
        · split at hE
          · exact ihA st input r st' hne hwf hE
          · exact ihI st input r st' hne hwf hE
          · exact ihE st input r st' hne hwf hE
          · exact ihF st input r st' hne hwf hE
          · exact (ihL st input r st' hne hwf hE).1
          · have h2 : st = st' := by
              rw [← interpret_number_snd st input, hE]
            exact scopesQ_self hne _ (by rw [← h2])
          · exact ihS st input r st' hne hwf hE
          · have h2 : st = st' := by
              rw [← interpret_unknown_snd st input, hE]
            exact scopesQ_self hne _ (by rw [← h2])
          · have h2 : st = st' := by
              rw [← interpret_variable_snd st input, hE]
            exact scopesQ_self hne _ (by rw [← h2])
          · obtain ⟨rfl, rfl⟩ := pair_eq hE.symm
            exact scopesQ_self hne _ rfl
    -- interpret_assignment
    · intro st input r st' hne hwf hE
      simp only [interpret_assignment] at hE
      repeat' split at hE
      all_goals try (obtain ⟨rfl, rfl⟩ := pair_eq hE.symm; exact scopesQ_self hne _ rfl)
      -- declaration form, define succeeded
      · rename_i c2 heq2 _h2 _h1 _h0 _x1 v st1 hinterp _x0 ss2 hdef
        obtain ⟨rfl, rfl⟩ := pair_eq hE.symm
        have hwfc : wfNode c2 = true := wf_mem_children hwf _ (by rw [heq2]; simp)
        have q1 := ihP st c2 _ _ hne hwfc hinterp
        obtain ⟨w, hw, hss⟩ := define_variable_eq hdef
        exact q1.trans_ok (scopesQ_update q1.ne _ _ (by simpa using hss))
      -- declaration form, define failed
      · rename_i c2 heq2 _h2 _h1 _h0 _x1 v st1 hinterp _x0 hdef
        obtain ⟨rfl, rfl⟩ := pair_eq hE.symm
        have hwfc : wfNode c2 = true := wf_mem_children hwf _ (by rw [heq2]; simp)
        exact (ihP st c2 _ _ hne hwfc hinterp).cast _
      -- declaration form, rhs interpretation did not return true
      · rename_i c2 heq2 _h2 _h1 _h0 _x1 _xno
        have hwfc : wfNode c2 = true := wf_mem_children hwf _ (by rw [heq2]; simp)
        exact ihP st c2 r st' hne hwfc hE
      -- reassignment form, set succeeded
      · rename_i c0' c1 heq2 _x1 v st1 hinterp _x0 ss2 hdef
        obtain ⟨rfl, rfl⟩ := pair_eq hE.symm
        have hwfc : wfNode c1 = true := wf_mem_children hwf _ (by rw [heq2]; simp)
        have q1 := ihP st c1 _ _ hne hwfc hinterp
        obtain ⟨w, hw, hss⟩ := set_value_eq hdef
        exact q1.trans_ok (scopesQ_update q1.ne _ _ (by simpa using hss))
      -- reassignment form, set failed
      · rename_i c0' c1 heq2 _x1 v st1 hinterp _x0 hdef
        obtain ⟨rfl, rfl⟩ := pair_eq hE.symm
        have hwfc : wfNode c1 = true := wf_mem_children hwf _ (by rw [heq2]; simp)
        exact (ihP st c1 _ _ hne hwfc hinterp).cast _
      -- reassignment form, rhs interpretation did not return true
      · rename_i c0' c1 heq2 _x1 _xno
        have hwfc : wfNode c1 = true := wf_mem_children hwf _ (by rw [heq2]; simp)
        exact ihP st c1 r st' hne hwfc hE
    -- interpret_string
    · intro st input r st' hne hwf hE
      simp only [interpret_string] at hE
      repeat' split at hE
      all_goals try (obtain ⟨rfl, rfl⟩ := pair_eq hE.symm; exact scopesQ_self hne _ rfl)
      exact ihSP st input.children [] r st' hne (wf_mem_children hwf) hE
    -- stringParts
    · intro st parts acc r st' hne hwf hE
      cases parts with
      | nil =>
        simp only [stringParts] at hE
        obtain ⟨rfl, rfl⟩ := pair_eq hE.symm
        exact scopesQ_self hne _ rfl
      | cons part rest =>
        simp only [stringParts] at hE
        repeat' split at hE
        · rename_i _x1 v st1 hinterp _x0 s hrep
          have q1 := ihP st part _ _ hne (hwf part (by simp)) hinterp
          exact q1.trans_ok (ihSP st1 rest _ r st' q1.ne (fun c hc => hwf c (by simp [hc])) hE)
        · rename_i _x1 v st1 hinterp _x0 hrep
          obtain ⟨rfl, rfl⟩ := pair_eq hE.symm
          exact (ihP st part _ _ hne (hwf part (by simp)) hinterp).cast _
        · rename_i _x1 _xno
          exact ihP st part r st' hne (hwf part (by simp)) hE
    -- interpret_expression
    · intro st input r st' hne hwf hE
      simp only [interpret_expression] at hE
      exact ihE1 st input.children 0 [] r st' hne (wf_mem_children hwf)
        (by intro c hc; cases hc) hE
    -- exprPass1
    · intro st children idx remaining r st' hne hwfc hwfr hE
      simp only [exprPass1] at hE
      repeat' split at hE
      all_goals try (obtain ⟨rfl, rfl⟩ := pair_eq hE.symm; exact scopesQ_self hne _ rfl)
      -- lhs interpreted ok but not a number
      · rename_i lhsNode hlast _x1 v st1 hinterp _x0 hnum
        obtain ⟨rfl, rfl⟩ := pair_eq hE.symm
        exact (ihP st lhsNode _ _ hne (hwfr lhsNode (List.mem_of_mem_getLast? hlast))
          hinterp).cast _
      -- rhs index out of range
      · rename_i lhsNode hlast _x1 v st1 hinterp _x0 lv hnum1 _xg hget
        obtain ⟨rfl, rfl⟩ := pair_eq hE.symm
        exact (ihP st lhsNode _ _ hne (hwfr lhsNode (List.mem_of_mem_getLast? hlast))
          hinterp).cast _
      -- rhs interpreted ok but not a number
      · rename_i lhsNode hlast _x1 v1 st11 hinterp1 _x2 lv hnum1 _x3 rhsNode hget _x4 v2 st2 hinterp2 _x5 hnum2
        obtain ⟨rfl, rfl⟩ := pair_eq hE.symm
        have q1 := ihP st lhsNode _ _ hne (hwfr lhsNode (List.mem_of_mem_getLast? hlast))
          hinterp1
        exact q1.trans_ok ((ihP st11 rhsNode _ _ q1.ne (hwfc rhsNode (List.get?_mem hget))
          hinterp2).cast _)
      -- both operands numbers, multiplication: continue past the consumed span
      · rename_i lhsNode hlast _x1 v1 st11 hinterp1 _x2 lv hnum1 _x3 rhsNode hget _x4 v2 st2 hinterp2 _x5 rv hnum2 hstar
        have q1 := ihP st lhsNode _ _ hne (hwfr lhsNode (List.mem_of_mem_getLast? hlast))
          hinterp1
        have q2 := ihP st11 rhsNode _ _ q1.ne (hwfc rhsNode (List.get?_mem hget)) hinterp2
        refine q1.trans_ok (q2.trans_ok (ihE1 st2 children _ _ r st' q2.ne hwfc ?_ hE))
        intro c hc
        rcases List.mem_append.mp hc with hc | hc
        · exact hwfr c (List.mem_of_mem_dropLast hc)
        · simp only [List.mem_singleton] at hc
          subst hc
          rfl
      -- both operands numbers, division: continue past the consumed span
      · rename_i lhsNode hlast _x1 v1 st11 hinterp1 _x2 lv hnum1 _x3 rhsNode hget _x4 v2 st2 hinterp2 _x5 rv hnum2 hstar
        have q1 := ihP st lhsNode _ _ hne (hwfr lhsNode (List.mem_of_mem_getLast? hlast))
          hinterp1
        have q2 := ihP st11 rhsNode _ _ q1.ne (hwfc rhsNode (List.get?_mem hget)) hinterp2
        refine q1.trans_ok (q2.trans_ok (ihE1 st2 children _ _ r st' q2.ne hwfc ?_ hE))
        intro c hc
        rcases List.mem_append.mp hc with hc | hc
        · exact hwfr c (List.mem_of_mem_dropLast hc)
        · simp only [List.mem_singleton] at hc
          subst hc
          rfl
      -- rhs interpretation did not return true
      · rename_i lhsNode hlast _x1 v1 st11 hinterp1 _x2 lv hnum1 _x3 rhsNode hget _x4 _xno
        have q1 := ihP st lhsNode _ _ hne (hwfr lhsNode (List.mem_of_mem_getLast? hlast))
          hinterp1
        exact q1.trans_ok (ihP st11 rhsNode r st' q1.ne (hwfc rhsNode (List.get?_mem hget)) hE)
      -- lhs interpretation did not return true
      · rename_i lhsNode hlast _x1 _xno
        exact ihP st lhsNode r st' hne (hwfr lhsNode (List.mem_of_mem_getLast? hlast)) hE
      -- a plus or minus operator: push and continue
      · refine ihE1 st children (idx+1) _ r st' hne hwfc ?_ hE
        intro c hc
        rcases List.mem_append.mp hc with hc | hc
        · exact hwfr c hc
        · simp only [List.mem_singleton] at hc
          subst hc
          exact hwfc _ (List.get_mem ..)
      -- a non-operator child: push and continue
      · refine ihE1 st children (idx+1) _ r st' hne hwfc ?_ hE
        intro c hc
        rcases List.mem_append.mp hc with hc | hc
        · exact hwfr c hc
        · simp only [List.mem_singleton] at hc
          subst hc
          exact hwfc _ (List.get_mem ..)
      -- end of the children: the tail phase
      · exact ihET st remaining r st' hne hwfr hE
    -- exprTail
    · intro st remaining r st' hne hwf hE
      simp only [exprTail] at hE
      repeat' split at hE
      all_goals try (obtain ⟨rfl, rfl⟩ := pair_eq hE.symm; exact scopesQ_self hne _ rfl)
      · rename_i single _x1 v st1 hinterp
        obtain ⟨rfl, rfl⟩ := pair_eq hE.symm
        exact ihP st single _ _ hne (hwf single (by simp)) hinterp
      · rename_i single _x1 _xno
        exact ihP st single r st' hne (hwf single (by simp)) hE
      · exact ihE2 st remaining 0 0 _ r st' hne hwf hE
    -- exprPass2
    · intro st remaining idx acc op r st' hne hwf hE
      simp only [exprPass2] at hE
      repeat' split at hE
      all_goals try (obtain ⟨rfl, rfl⟩ := pair_eq hE.symm; exact scopesQ_self hne _ rfl)
      -- item interpreted ok but not a number
      · rename_i hlt _heven _x1 v st1 hinterp _x0 _hnone
        obtain ⟨rfl, rfl⟩ := pair_eq hE.symm
        exact (ihP st _ _ _ hne (hwf _ (List.get_mem ..)) hinterp).cast _
      -- item is a number, current operation is plus
      · rename_i hlt _heven _x1 v st1 hinterp _x0 w _hsome _hop
        have q1 := ihP st _ _ _ hne (hwf _ (List.get_mem ..)) hinterp
        exact q1.trans_ok (ihE2 st1 remaining (idx+1) _ op r st' q1.ne hwf hE)
      -- item is a number, current operation is minus
      · rename_i hlt _heven _x1 v st1 hinterp _x0 w _hsome _hop
        have q1 := ihP st _ _ _ hne (hwf _ (List.get_mem ..)) hinterp
        exact q1.trans_ok (ihE2 st1 remaining (idx+1) _ op r st' q1.ne hwf hE)
      -- item interpretation did not return true
      · rename_i hlt _heven _x1 _xno
        exact ihP st _ r st' hne (hwf _ (List.get_mem ..)) hE
      -- odd index holds an operator: remember it and continue
      · exact ihE2 st remaining (idx+1) acc _ r st' hne hwf hE
    -- interpret_loop
    · intro st input r st' hne hwf hE
      simp only [interpret_loop] at hE
      repeat' split at hE
      all_goals try (obtain ⟨rfl, rfl⟩ := pair_eq hE.symm; exact loop_fail_self hne rfl)
      all_goals try (obtain ⟨rfl, rfl⟩ := pair_eq hE.symm; exact loop_fail_push hne rfl)
      -- lower bound not a number
      · rename_i _t1 _t2 _x9 c0 c1 tl hcl _h2 _h1 _h0 _x8 b0 b1 b2 hch _x7 v0 st2 hi0 _x6 _hn0
        obtain ⟨rfl, rfl⟩ := pair_eq hE.symm
        have hwfb := wf_mem_children (wf_mem_children hwf c1 (by rw [hcl]; simp))
        have q0 := ihP { scopes := open_new_scope st.scopes, output := st.output } b0 _ _
          (by simp [open_new_scope]) (hwfb b0 (by rw [hch]; simp)) hi0
        obtain ⟨top, hsh⟩ := q0.ok_shape
        simp only [open_new_scope, List.dropLast_concat] at hsh
        exact loop_fail_push hne hsh
      -- step not a number
      · rename_i _t1 _t2 _x9 c0 c1 tl hcl _h2 _h1 _h0 _x8 b0 b1 b2 hch _x7 v0 st2 hi0 _x6 w0 _hs0 _x5 v1 st3 hi1 _x4 _hn1
        obtain ⟨rfl, rfl⟩ := pair_eq hE.symm
        have hwfb := wf_mem_children (wf_mem_children hwf c1 (by rw [hcl]; simp))
        have q0 := ihP { scopes := open_new_scope st.scopes, output := st.output } b0 _ _
          (by simp [open_new_scope]) (hwfb b0 (by rw [hch]; simp)) hi0
        have q1 := ihP st2 b1 _ _ q0.ne (hwfb b1 (by rw [hch]; simp)) hi1
        obtain ⟨top, hsh⟩ := (q0.trans_ok q1).ok_shape
        simp only [open_new_scope, List.dropLast_concat] at hsh
        exact loop_fail_push hne hsh
      -- upper bound not a number
      · rename_i _t1 _t2 _x9 c0 c1 tl hcl _h2 _h1 _h0 _x8 b0 b1 b2 hch _x7 v0 st2 hi0 _x6 w0 _hs0 _x5 v1 st3 hi1 _x4 w1 _hs1 _x3 v2 st4 hi2 _x2 _hn2
        obtain ⟨rfl, rfl⟩ := pair_eq hE.symm
        have hwfb := wf_mem_children (wf_mem_children hwf c1 (by rw [hcl]; simp))
        have q0 := ihP { scopes := open_new_scope st.scopes, output := st.output } b0 _ _
          (by simp [open_new_scope]) (hwfb b0 (by rw [hch]; simp)) hi0
        have q1 := ihP st2 b1 _ _ q0.ne (hwfb b1 (by rw [hch]; simp)) hi1
        have q2 := ihP st3 b2 _ _ q1.ne (hwfb b2 (by rw [hch]; simp)) hi2
        obtain ⟨top, hsh⟩ := (q0.trans_ok (q1.trans_ok q2)).ok_shape
        simp only [open_new_scope, List.dropLast_concat] at hsh
        exact loop_fail_push hne hsh
      -- bounds in hand, loop variable defined: run the iteration loop
      · rename_i _t1 _t2 _x9 c0 c1 tl hcl _h2 _h1 _h0 _x8 b0 b1 b2 hch _x7 v0 st2 hi0 _x6 w0 _hs0 _x5 v1 st3 hi1 _x4 w1 _hs1 _x3 v2 st4 hi2 _x2 w2 _hs2 _x1 ss5 hdef
        have hwfb := wf_mem_children (wf_mem_children hwf c1 (by rw [hcl]; simp))
        have q0 := ihP { scopes := open_new_scope st.scopes, output := st.output } b0 _ _
          (by simp [open_new_scope]) (hwfb b0 (by rw [hch]; simp)) hi0
        have q1 := ihP st2 b1 _ _ q0.ne (hwfb b1 (by rw [hch]; simp)) hi1
        have q2 := ihP st3 b2 _ _ q1.ne (hwfb b2 (by rw [hch]; simp)) hi2
        obtain ⟨top, hsh⟩ := (q0.trans_ok (q1.trans_ok q2)).ok_shape
        simp only [open_new_scope, List.dropLast_concat] at hsh
        obtain ⟨w, hw, hss⟩ := define_variable_eq hdef
        rw [hsh, updateLastScope_concat] at hss
        have hLI := ihLI { scopes := ss5, output := st4.output } input.children c0.value
          _ _ _ r st' (by simp [hss]) (wf_mem_children hwf) hE
        have hLI2 : LoopQ (st.scopes ++ [scopeInsert top c0.value w]) r st' := by
          rw [← hss]
          exact hLI
        exact loop_conclusion hne hLI2
      -- bounds in hand, loop variable definition failed: iterate anyway
      · rename_i _t1 _t2 _x9 c0 c1 tl hcl _h2 _h1 _h0 _x8 b0 b1 b2 hch _x7 v0 st2 hi0 _x6 w0 _hs0 _x5 v1 st3 hi1 _x4 w1 _hs1 _x3 v2 st4 hi2 _x2 w2 _hs2 _x1 hdef0
        have hwfb := wf_mem_children (wf_mem_children hwf c1 (by rw [hcl]; simp))
        have q0 := ihP { scopes := open_new_scope st.scopes, output := st.output } b0 _ _
          (by simp [open_new_scope]) (hwfb b0 (by rw [hch]; simp)) hi0
        have q1 := ihP st2 b1 _ _ q0.ne (hwfb b1 (by rw [hch]; simp)) hi1
        have q2 := ihP st3 b2 _ _ q1.ne (hwfb b2 (by rw [hch]; simp)) hi2
        obtain ⟨top, hsh⟩ := (q0.trans_ok (q1.trans_ok q2)).ok_shape
        simp only [open_new_scope, List.dropLast_concat] at hsh
        have hLI := ihLI st4 input.children c0.value _ _ _ r st'
          (q0.trans_ok (q1.trans_ok q2)).ne (wf_mem_children hwf) hE
        rw [hsh] at hLI
        exact loop_conclusion hne hLI
      -- upper bound interpretation did not return true
      · rename_i _t1 _t2 _x9 c0 c1 tl hcl _h2 _h1 _h0 _x8 b0 b1 b2 hch _x7 v0 st2 hi0 _x6 w0 _hs0 _x5 v1 st3 hi1 _x4 w1 _hs1 _x3 hno
        have hnok : ∀ a, r ≠ Res.ok a := fun a ha => hno a st' (ha ▸ hE)
        have hwfb := wf_mem_children (wf_mem_children hwf c1 (by rw [hcl]; simp))
        have q0 := ihP { scopes := open_new_scope st.scopes, output := st.output } b0 _ _
          (by simp [open_new_scope]) (hwfb b0 (by rw [hch]; simp)) hi0
        have q1 := ihP st2 b1 _ _ q0.ne (hwfb b1 (by rw [hch]; simp)) hi1
        have q2 := ihP st3 b2 r st' q1.ne (hwfb b2 (by rw [hch]; simp)) hE
        exact ⟨scopesQ_unpush hne hnok (q0.trans_ok (q1.trans_ok q2)),
          fun v hv => absurd hv (hnok v)⟩
      -- step interpretation did not return true
      · rename_i _t1 _t2 _x9 c0 c1 tl hcl _h2 _h1 _h0 _x8 b0 b1 b2 hch _x7 v0 st2 hi0 _x6 w0 _hs0 _x5 hno
        have hnok : ∀ a, r ≠ Res.ok a := fun a ha => hno a st' (ha ▸ hE)
        have hwfb := wf_mem_children (wf_mem_children hwf c1 (by rw [hcl]; simp))
        have q0 := ihP { scopes := open_new_scope st.scopes, output := st.output } b0 _ _
          (by simp [open_new_scope]) (hwfb b0 (by rw [hch]; simp)) hi0
        have q1 := ihP st2 b1 r st' q0.ne (hwfb b1 (by rw [hch]; simp)) hE
        exact ⟨scopesQ_unpush hne hnok (q0.trans_ok q1),
          fun v hv => absurd hv (hnok v)⟩
      -- lower bound interpretation did not return true
      · rename_i _t1 _t2 _x9 c0 c1 tl hcl _h2 _h1 _h0 _x8 b0 b1 b2 hch _x7 hno
        have hnok : ∀ a, r ≠ Res.ok a := fun a ha => hno a st' (ha ▸ hE)
        have hwfb := wf_mem_children (wf_mem_children hwf c1 (by rw [hcl]; simp))
        have q0 := ihP { scopes := open_new_scope st.scopes, output := st.output } b0 r st'
          (by simp [open_new_scope]) (hwfb b0 (by rw [hch]; simp)) hE
        exact ⟨scopesQ_unpush hne hnok q0, fun v hv => absurd hv (hnok v)⟩
    -- loopIter
    · intro st children name step upper lv r st' hne hwf hE
      simp only [loopIter] at hE
      repeat' split at hE
      -- the dead re-read error branch (the conjunction is never true)
      · rename_i _hle _x1 v0 st1 hbody hcontra
        exact absurd hcontra.2 (by simp [number_from_value])
      -- increment failed to write the loop variable
      · rename_i _hle _x2 v0 st1 hbody _hc _x1 hset
        obtain ⟨rfl, rfl⟩ := pair_eq hE.symm
        have q := ihB st (children.drop 2) _ _ hne
          (fun c hc => hwf c (List.drop_subset _ _ hc)) hbody
        exact loopQ_of_scopesQ (fun a ha => Res.noConfusion ha) (q.cast _)
      -- body succeeded, loop variable incremented: next iteration
      · rename_i _hle _x2 v0 st1 hbody _hc _x1 ss2 hset
        have q := ihB st (children.drop 2) _ _ hne
          (fun c hc => hwf c (List.drop_subset _ _ hc)) hbody
        obtain ⟨top1, hsh1⟩ := q.ok_shape
        obtain ⟨w, hw, hss⟩ := set_value_eq hset
        rw [hsh1, updateLastScope_concat] at hss
        have hrec := ihLI { scopes := ss2, output := st1.output } children name step upper
          (lv + step) r st' (by simp [hss]) hwf hE
        refine LoopQ.congr ?_ hrec
        show ss2.dropLast = st.scopes.dropLast
        rw [hss]
        simp
      -- the body did not return true
      · rename_i _hle _x1 hno
        have hnok : ∀ a, r ≠ Res.ok a := fun a ha => hno a st' (ha ▸ hE)
        exact loopQ_of_scopesQ hnok (ihB st (children.drop 2) r st' hne
          (fun c hc => hwf c (List.drop_subset _ _ hc)) hE)
      -- bound exceeded but the scope cannot be closed
      · rename_i _hgt _x1 hclose
        obtain ⟨rfl, rfl⟩ := pair_eq hE.symm
        exact loopQ_of_scopesQ (fun a ha => Res.noConfusion ha) (scopesQ_self hne _ rfl)
      -- bound exceeded: pop the loop scope and succeed
      · rename_i _hgt _x1 ss2 hclose
        obtain ⟨rfl, rfl⟩ := pair_eq hE.symm
        obtain rfl := close_scope_eq hclose
        exact ⟨[], by simp, fun a ha => rfl⟩
    -- bodyRun
    · intro st stmts r st' hne hwf hE
      cases stmts with
      | nil =>
        simp only [bodyRun] at hE
        obtain ⟨rfl, rfl⟩ := pair_eq hE.symm
        exact scopesQ_self hne _ rfl
      | cons stmt rest =>
        simp only [bodyRun] at hE
        repeat' split at hE
        · rename_i _x1 v st1 hinterp
          have q1 := ihP st stmt _ _ hne (hwf stmt (by simp)) hinterp
          exact q1.trans_ok (ihB st1 rest r st' q1.ne
            (fun c hc => hwf c (by simp [hc])) hE)
        · rename_i _x1 _hno
          exact ihP st stmt r st' hne (hwf stmt (by simp)) hE
    -- interpret_function
    · intro st fc r st' hne hwf hE
      simp only [interpret_function] at hE
      repeat' split at hE
      all_goals try (obtain ⟨rfl, rfl⟩ := pair_eq hE.symm; exact scopesQ_self hne _ rfl)
      exact ihFP st fc r st' hne hwf hE
    -- function_print
    · intro st fc r st' hne hwf hE
      simp only [function_print] at hE
      repeat' split at hE
      -- message is a string: print it
      · rename_i _x2 args st1 hargs _x1 s hmsg
        obtain ⟨rfl, rfl⟩ := pair_eq hE.symm
        obtain ⟨top, hsh⟩ := (ihIA st fc [] _ _ hne hwf hargs).1.true_shape
        have hsh2 : ({ scopes := st1.scopes, output := st1.output ++ [s] } : State).scopes
            = st.scopes.dropLast ++ [top] := hsh
        exact scopesQ_of_shape hsh2 _
      -- message missing or not a string
      · rename_i _x2 args st1 hargs _x1 _hno
        obtain ⟨rfl, rfl⟩ := pair_eq hE.symm
        obtain ⟨top, hsh⟩ := (ihIA st fc [] _ _ hne hwf hargs).1.true_shape
        exact scopesQ_of_shape hsh _
      -- argument gathering returned false
      · rename_i _x1 m st1 hargs
        obtain ⟨rfl, rfl⟩ := pair_eq hE.symm
        exact scopesQ_fail_of_argsQweak (ihIA st fc [] _ _ hne hwf hargs).1
          (fun a ha => Res.noConfusion ha) rfl
      -- argument gathering failed
      · rename_i _x1 st1 hargs
        obtain ⟨rfl, rfl⟩ := pair_eq hE.symm
        exact scopesQ_fail_of_argsQweak (ihIA st fc [] _ _ hne hwf hargs).1
          (fun a ha => Res.noConfusion ha) rfl
      -- argument gathering hit undefined behaviour
      · rename_i _x1 st1 hargs
        obtain ⟨rfl, rfl⟩ := pair_eq hE.symm
        exact scopesQ_fail_of_argsQweak (ihIA st fc [] _ _ hne hwf hargs).1
          (fun a ha => Res.noConfusion ha) rfl
      -- argument gathering ran out of fuel
      · rename_i _x1 st1 hargs
        obtain ⟨rfl, rfl⟩ := pair_eq hE.symm
        exact scopesQ_fail_of_argsQweak (ihIA st fc [] _ _ hne hwf hargs).1
          (fun a ha => Res.noConfusion ha) rfl
    -- interpret_arguments_from_function_call
    · intro st fc filter r st' hne hwf hE
      simp only [interpret_arguments_from_function_call] at hE
      repeat' split at hE
      all_goals try (obtain ⟨rfl, rfl⟩ := pair_eq hE.symm; exact args_conclusion_self hne rfl _)
      -- a single argument-list child: gather the arguments
      · rename_i _h2 _h1 _x1 al hch _h0
        have hAL := ihAL st al.children filter [] r st' hne (wf_grandchild hwf hch) hE
        refine ⟨hAL.1, ?_⟩
        intro htyp hval
        obtain ⟨hd, hp⟩ := wf_pol_args hwf htyp hval hch
        exact hAL.2 hd hp (fun a ha => rfl)
    -- argsLoop
    · intro st args filter acc r st' hne hwf hE
      cases args with
      | nil =>
        simp only [argsLoop] at hE
        obtain ⟨rfl, rfl⟩ := pair_eq hE.symm
        exact args_conclusion_self3 hne rfl _
      | cons arg rest =>
        simp only [argsLoop] at hE
        repeat' split at hE
        all_goals try (obtain ⟨rfl, rfl⟩ := pair_eq hE.symm; exact args_conclusion_self3 hne rfl _)
        -- the argument evaluated: record it and continue
        · rename_i _h1 _h0 _x2 a0 hch0 _x1 v st1 hinterp
          have hwfa : wfNode a0 = true :=
            wf_mem_children (hwf arg (by simp)) a0 (by rw [hch0]; simp)
          have q1 := ihP st a0 _ _ hne hwfa hinterp
          have hrec := ihAL st1 rest filter (argsInsert acc arg.value v) r st' q1.ne
            (fun c hc => hwf c (by simp [hc])) hE
          refine ⟨q1.trans_argsQweak hrec.1, ?_⟩
          intro hd hp hacc
          simp only [List.all_cons, Bool.and_eq_true] at hp
          obtain ⟨hvm, hd2⟩ := distinctVals_cons hd
          refine q1.trans_argsQ (hrec.2 hd2 hp.2 ?_)
          intro a ha
          rw [argsInsert_lookup_ne (valueMem_false hvm a ha) acc]
          exact hacc a (by simp [ha])
        -- the argument failed to evaluate: false return without a value
        · rename_i _h1 _h0 _x2 a0 hch0 _x1 st1 hinterp
          obtain ⟨rfl, rfl⟩ := pair_eq hE.symm
          have hwfa : wfNode a0 = true :=
            wf_mem_children (hwf arg (by simp)) a0 (by rw [hch0]; simp)
          obtain ⟨top, extra, hsh, -⟩ := ihP st a0 _ _ hne hwfa hinterp
          refine ⟨⟨top, extra, hsh, fun m hm => absurd hm (by simp)⟩, ?_⟩
          intro hd hp hacc
          simp only [List.all_cons, Bool.and_eq_true] at hp
          refine ⟨top, extra, hsh, fun m hm => absurd hm (by simp), ?_⟩
          intro m hm
          obtain rfl : acc = m := by simpa using hm
          rcases polName_cases hp.1 with hv | hv
          · exact Or.inr (Or.inl (by rw [← hv]; exact hacc arg (by simp)))
          · exact Or.inr (Or.inr (by rw [← hv]; exact hacc arg (by simp)))
        -- the argument hit undefined behaviour
        · rename_i _h1 _h0 _x2 a0 hch0 _x1 st1 hinterp
          obtain ⟨rfl, rfl⟩ := pair_eq hE.symm
          have hwfa : wfNode a0 = true :=
            wf_mem_children (hwf arg (by simp)) a0 (by rw [hch0]; simp)
          obtain ⟨top, extra, hsh, -⟩ := ihP st a0 _ _ hne hwfa hinterp
          exact ⟨⟨top, extra, hsh, fun m hm => Res.noConfusion hm⟩,
            fun _ _ _ => ⟨top, extra, hsh, fun m hm => Res.noConfusion hm,
              fun m hm => Res.noConfusion hm⟩⟩
        -- the argument ran out of fuel
        · rename_i _h1 _h0 _x2 a0 hch0 _x1 st1 hinterp
          obtain ⟨rfl, rfl⟩ := pair_eq hE.symm
          have hwfa : wfNode a0 = true :=
            wf_mem_children (hwf arg (by simp)) a0 (by rw [hch0]; simp)
          obtain ⟨top, extra, hsh, -⟩ := ihP st a0 _ _ hne hwfa hinterp
          exact ⟨⟨top, extra, hsh, fun m hm => Res.noConfusion hm⟩,
            fun _ _ _ => ⟨top, extra, hsh, fun m hm => Res.noConfusion hm,
              fun m hm => Res.noConfusion hm⟩⟩
        -- parameter filtered out: skip it
        · have hrec := ihAL st rest filter acc r st' hne
            (fun c hc => hwf c (by simp [hc])) hE
          refine ⟨hrec.1, ?_⟩
          intro hd hp hacc
          simp only [List.all_cons, Bool.and_eq_true] at hp
          exact hrec.2 (distinctVals_cons hd).2 hp.2 (fun a ha => hacc a (by simp [ha]))
    -- interpret_initialization
    · intro st init r st' hne hwf hE
      simp only [interpret_initialization] at hE
      repeat' split at hE
      all_goals try (obtain ⟨rfl, rfl⟩ := pair_eq hE.symm; exact scopesQ_self hne _ rfl)
      -- a Pol with numeric r and phi: the strong argument discipline
      -- rules out a leaked scope even though the bool was ignored
      · rename_i hty _h2 _x3 al hch _h1 _x2 b args st1 hargs hval _x1 _x0 r0 phi0 hnr hnphi
        obtain ⟨rfl, rfl⟩ := pair_eq hE.symm
        have hQ := (ihIA st init [] _ _ hne hwf hargs).2 (not_not.mp hty) hval
        obtain ⟨top, extra, hsh, htrue, hfalse⟩ := hQ
        cases b with
        | true =>
          obtain rfl := htrue args rfl
          exact ⟨top, [], hsh, fun _ _ => rfl⟩
        | false =>
          rcases hfalse args rfl with hex | hlr | hlphi
          · subst hex
            exact ⟨top, [], hsh, fun _ _ => rfl⟩
          · exact absurd hlr (number_value_lookup hnr)
          · exact absurd hlphi (number_value_lookup hnphi)
      -- a Pol whose r or phi is not numeric
      · rename_i _hty _h2 _x4 al hch _h1 _x3 b args st1 hargs hval _x2 _x1 _hno
        obtain ⟨rfl, rfl⟩ := pair_eq hE.symm
        obtain ⟨top, extra, hsh⟩ := (ihIA st init [] _ _ hne hwf hargs).1.shape
        exact ⟨top, extra, hsh, fun a ha => Res.noConfusion ha⟩
      -- an initializer that is not Pol
      · rename_i _hty _h2 _x2 al hch _h1 _x1 b args st1 hargs _hv
        obtain ⟨rfl, rfl⟩ := pair_eq hE.symm
        obtain ⟨top, extra, hsh⟩ := (ihIA st init [] _ _ hne hwf hargs).1.shape
        exact ⟨top, extra, hsh, fun a ha => Res.noConfusion ha⟩
      -- argument gathering failed
      · rename_i _hty _h2 _x2 al hch _h1 _x1 st1 hargs
        obtain ⟨rfl, rfl⟩ := pair_eq hE.symm
        obtain ⟨top, extra, hsh⟩ := (ihIA st init [] _ _ hne hwf hargs).1.shape
        exact ⟨top, extra, hsh, fun a ha => Res.noConfusion ha⟩
      -- argument gathering hit undefined behaviour
      · rename_i _hty _h2 _x2 al hch _h1 _x1 st1 hargs
        obtain ⟨rfl, rfl⟩ := pair_eq hE.symm
        obtain ⟨top, extra, hsh⟩ := (ihIA st init [] _ _ hne hwf hargs).1.shape
        exact ⟨top, extra, hsh, fun a ha => Res.noConfusion ha⟩
      -- argument gathering ran out of fuel
      · rename_i _hty _h2 _x2 al hch _h1 _x1 st1 hargs
        obtain ⟨rfl, rfl⟩ := pair_eq hE.symm
        obtain ⟨top, extra, hsh⟩ := (ihIA st init [] _ _ hne hwf hargs).1.shape
        exact ⟨top, extra, hsh, fun a ha => Res.noConfusion ha⟩


/-! ## The claims -/

/-- Soundness of the argument-list loop: a successful parse returns an
`ArgumentList` whose additional argument names are exactly the next
slice of the declared parameters, in declared order, never exceeding
the declared count. -/
theorem argLoop_names : ∀ (fuel : Nat) (toks : List Token) (expected : List (List Char))
    (found : Nat) (acc : List ParseResult) (pr : ParseResult),
    found ≤ expected.length →
    argLoop fuel toks expected found acc = Res.ok pr →
    ∃ extraArgs : List ParseResult,
      pr = ParseResult.mk .ArgumentList [] (acc ++ extraArgs) ∧
      extraArgs.map ParseResult.value = (expected.drop found).take extraArgs.length ∧
      found + extraArgs.length ≤ expected.length := by
  intro fuel
  induction fuel with
  | zero =>
    intro toks expected found acc pr hf h
    exact Res.noConfusion h
  | succ fuel ih =>
    intro toks expected found acc pr hf h
    match toks with
    | [] =>
      obtain rfl : ParseResult.mk .ArgumentList [] acc = pr := by simpa [argLoop] using h
      exact ⟨[], by simp, by simp, by simpa using hf⟩
    | nameTok :: rest =>
      simp only [argLoop, Res.bind] at h
      repeat' split at h
      all_goals try exact Res.noConfusion h
      rename_i _hge hname _xr1 colonTok _hcolon _xr2 t0 tl _x2 vals rem hsplit _x1 _x0 argEval hparse
      have hlt : found < expected.length := by omega
      obtain ⟨extraArgs, rfl, hmap, hle⟩ := ih (rem.drop 1) expected (found + 1) _ pr
        (by omega) h
      refine ⟨ParseResult.mk .Argument nameTok.value [argEval] :: extraArgs, by simp, ?_,
        by simp only [List.length_cons]; omega⟩
      simp only [List.map_cons, ParseResult.value, List.length_cons]
      rw [List.drop_eq_getElem_cons hlt, List.take_succ_cons, hmap, not_not.mp hname]
      congr 1
      exact List.getD_eq_getElem _ _ hlt

/-- C1 (amended): the two-argument `State::set_value_for_variable` of
`state.cpp` fails exactly when the name resolves in no scope, and on
success it writes the binding into `scopes.back()` — the current
innermost scope — regardless of which scope the name resolved in.  (The
three-argument revision of the file writes the resolving scope, which
is the behaviour the original claim describes.) -/
theorem c1_reassignment_writes_current_scope (ss : List Scope) (k : List Char)
    (v : Option Value) :
    (value_for_variable ss k = none → set_value_for_variable ss k v = none) ∧
    (∀ w, v = some w → value_for_variable ss k ≠ none →
      set_value_for_variable ss k v
        = some (updateLastScope ss (fun sc => scopeInsert sc k w))) := by
  constructor
  · intro h
    unfold set_value_for_variable
    simp [h]
  · rintro w rfl h
    unfold set_value_for_variable
    simp [Option.isNone_iff_eq_none, h]

/-- C1 (counterexample): reassigning `x`, bound only in the outer
scope, while an inner scope is open leaves the outer binding at `1` and
creates a new binding `x = 5` in the inner scope — the claim said the
outer binding is overwritten and no inner binding appears. -/
theorem c1_outer_binding_untouched_inner_created :
    interpret_assignment 20 { scopes := [[("x".data, Value.num 1)], []], output := [] }
      (ParseResult.mk .Assignment "=".data
        [ParseResult.mk .Variable "x".data [], ParseResult.mk .Number "5.0".data []])
      = (Res.ok (some (Value.num 5)),
         { scopes := [[("x".data, Value.num 1)], [("x".data, Value.num 5)]], output := [] }) := by
  with_unfolding_all rfl

/-- C1 (witness): the amended theorem applied at a two-scope stack
whose outer scope binds `x`. -/
theorem c1_reassignment_writes_current_scope_witness :
    value_for_variable [[("x".data, Value.num 1)], []] "x".data ≠ none ∧
    set_value_for_variable [[("x".data, Value.num 1)], []] "x".data (some (Value.num 5))
      = some (updateLastScope [[("x".data, Value.num 1)], []]
          (fun sc => scopeInsert sc "x".data (Value.num 5))) :=
  ⟨by decide, (c1_reassignment_writes_current_scope _ _ _).2 (Value.num 5) rfl (by decide)⟩

/-- C2 (code bug): the loop `for i in [0.0, 1.0, 3.0]` whose body
prints `x` and then rebinds `i` to `10.0` runs four passes (i = 0, 1,
2, 3 from the interpreter's private counter).  Under the claimed
re-read semantics the rebinding to `10.0` would make the next bound
check `10 + 1 > 3` and stop after one pass, so the output would be a
single `x`. -/
theorem c2_increment_ignores_body_rebinding :
    run_program 99 ["for i in [0.0, 1.0, 3.0] \x7b".data,
      "print(message: \"x\")".data, "i = 10.0".data, "\x7d".data]
      = (Res.ok none, { scopes := [[]], output := ["x".data, "x".data, "x".data, "x".data] }) := by
  with_unfolding_all rfl

/-- C3 (amended): a successful argument-list parse yields an
`ArgumentList` whose argument names are, in order, a prefix of the
declared parameter list — so swapped names, an undeclared name, or
more arguments than declared all fail — but the parse does not require
the prefix to be the whole declared list. -/
theorem c3_argument_names_follow_declared_order (fuel : Nat) (toks : List Token)
    (expected : List (List Char)) (pr : ParseResult)
    (h : parse_argument_list fuel toks expected = Res.ok pr) :
    pr.type = .ArgumentList ∧
    pr.children.map ParseResult.value = expected.take pr.children.length ∧
    pr.children.length ≤ expected.length := by
  match fuel with
  | 0 => exact Res.noConfusion h
  | fuel + 1 =>
    simp only [parse_argument_list] at h
    split at h
    · exact Res.noConfusion h
    · obtain ⟨extraArgs, rfl, hmap, hle⟩ := argLoop_names fuel toks expected 0 [] pr
        (by simp) h
      simp only [ParseResult.type, ParseResult.children, List.nil_append]
      refine ⟨by trivial, ?_, by simpa using hle⟩
      simpa using hmap

/-- C3 (counterexample): against `Pol`'s declared parameters
`r, phi`, the parser accepts a missing argument (only `r` supplied), a
trailing comma, and an empty value before a comma (an `Empty` node is
parsed for it) — the claim said each of these fails; the swapped-order
call is indeed rejected. -/
theorem c3_missing_arg_trailing_comma_empty_value_accepted :
    parse_argument_list 50 [argTok ("r".data), argTok (":".data), argTok ("1.0".data)]
        ["r".data, "phi".data]
      = Res.ok (ParseResult.mk .ArgumentList []
          [ParseResult.mk .Argument "r".data [ParseResult.mk .Number "1.0".data []]]) ∧
    parse_argument_list 50
        [argTok ("r".data), argTok (":".data), argTok ("1.0".data), argTok (",".data),
         argTok ("phi".data), argTok (":".data), argTok ("2.0".data), argTok (",".data)]
        ["r".data, "phi".data]
      = Res.ok (ParseResult.mk .ArgumentList []
          [ParseResult.mk .Argument "r".data [ParseResult.mk .Number "1.0".data []],
           ParseResult.mk .Argument "phi".data [ParseResult.mk .Number "2.0".data []]]) ∧
    parse_argument_list 50
        [argTok ("r".data), argTok (":".data), argTok (",".data),
         argTok ("phi".data), argTok (":".data), argTok ("2.0".data)]
        ["r".data, "phi".data]
      = Res.ok (ParseResult.mk .ArgumentList []
          [ParseResult.mk .Argument "r".data [ParseResult.mk .Empty [] []],
           ParseResult.mk .Argument "phi".data [ParseResult.mk .Number "2.0".data []]]) ∧
    parse_argument_list 50
        [argTok ("phi".data), argTok (":".data), argTok ("2.0".data), argTok (",".data),
         argTok ("r".data), argTok (":".data), argTok ("1.0".data)]
        ["r".data, "phi".data]
      = Res.fail := by
  refine ⟨?_, ?_, ?_, ?_⟩
  · with_unfolding_all rfl
  · with_unfolding_all rfl
  · with_unfolding_all rfl
  · with_unfolding_all rfl

/-- C3 (witness): the amended theorem applied to the full two-argument
`Pol` call. -/
theorem c3_argument_names_follow_declared_order_witness :
    parse_argument_list 50
        [argTok ("r".data), argTok (":".data), argTok ("1.0".data), argTok (",".data),
         argTok ("phi".data), argTok (":".data), argTok ("2.0".data)]
        ["r".data, "phi".data]
      = Res.ok (ParseResult.mk .ArgumentList []
          [ParseResult.mk .Argument "r".data [ParseResult.mk .Number "1.0".data []],
           ParseResult.mk .Argument "phi".data [ParseResult.mk .Number "2.0".data []]]) ∧
    ((ParseResult.mk .ArgumentList []
          [ParseResult.mk .Argument "r".data [ParseResult.mk .Number "1.0".data []],
           ParseResult.mk .Argument "phi".data [ParseResult.mk .Number "2.0".data []]]).type
        = .ArgumentList ∧
      (ParseResult.mk .ArgumentList []
          [ParseResult.mk .Argument "r".data [ParseResult.mk .Number "1.0".data []],
           ParseResult.mk .Argument "phi".data [ParseResult.mk .Number "2.0".data []]]).children.map
          ParseResult.value
        = (["r".data, "phi".data] : List (List Char)).take
            (ParseResult.mk .ArgumentList []
              [ParseResult.mk .Argument "r".data [ParseResult.mk .Number "1.0".data []],
               ParseResult.mk .Argument "phi".data [ParseResult.mk .Number "2.0".data []]]).children.length ∧
      (ParseResult.mk .ArgumentList []
          [ParseResult.mk .Argument "r".data [ParseResult.mk .Number "1.0".data []],
           ParseResult.mk .Argument "phi".data [ParseResult.mk .Number "2.0".data []]]).children.length
        ≤ (["r".data, "phi".data] : List (List Char)).length) :=
  ⟨by with_unfolding_all rfl,
   c3_argument_names_follow_declared_order 50
     [argTok ("r".data), argTok (":".data), argTok ("1.0".data), argTok (",".data),
      argTok ("phi".data), argTok (":".data), argTok ("2.0".data)]
     ["r".data, "phi".data] _ (by with_unfolding_all rfl)⟩

/-- C4 (amended): when a loop interpretation returns `true` the scope
stack is restored exactly, and on any outcome the scopes below the
caller's top are untouched; but the error paths that run between the
scope opening and the iteration loop (malformed loop node, non-numeric
bound) return with the fresh scope still on the stack, so a failed
loop can leak a scope. -/
theorem c4_successful_loop_restores_scopes (fuel : Nat) (st : State)
    (input : ParseResult) (v : Option Value) (st' : State)
    (hne : st.scopes ≠ []) (hwf : wfNode input = true)
    (hE : interpret_loop fuel st input = (Res.ok v, st')) :
    st'.scopes = st.scopes := by
  have h := (scope_discipline fuel).2.2.2.2.2.2.2.2.1 st input (Res.ok v) st' hne hwf hE
  exact h.2 v rfl

/-- C4 (counterexample): a loop whose lower bound is a string fails
after the loop scope was opened and returns with two scopes on the
stack that started as one — the claim said every failing exit restores
the depth. -/
theorem c4_failed_loop_leaks_scope :
    interpret_loop 30 State.initial
      (ParseResult.mk .Loop "for".data
        [ParseResult.mk .Unknown "i".data [],
         ParseResult.mk .Range "in".data
           [ParseResult.mk .String "s".data [], ParseResult.mk .Number "1.0".data [],
            ParseResult.mk .Number "1.0".data []],
         ParseResult.mk .Number "0.0".data []])
      = (Res.fail, { scopes := [[], []], output := [] }) := by
  with_unfolding_all rfl

/-- C4 (witness): the amended theorem applied to a loop over
`[0.0, 1.0, 0.0]` with a numeric-literal body, which succeeds from the
initial state and returns to it. -/
theorem c4_successful_loop_restores_scopes_witness :
    interpret_loop 30 State.initial
      (ParseResult.mk .Loop "for".data
        [ParseResult.mk .Unknown "i".data [],
         ParseResult.mk .Range "in".data
           [ParseResult.mk .Number "0.0".data [], ParseResult.mk .Number "1.0".data [],
            ParseResult.mk .Number "0.0".data []],
         ParseResult.mk .Number "1.0".data []])
      = (Res.ok none, State.initial) ∧
    State.initial.scopes = State.initial.scopes :=
  ⟨by with_unfolding_all rfl,
   c4_successful_loop_restores_scopes 30 State.initial
     (ParseResult.mk .Loop "for".data
       [ParseResult.mk .Unknown "i".data [],
        ParseResult.mk .Range "in".data
          [ParseResult.mk .Number "0.0".data [], ParseResult.mk .Number "1.0".data [],
           ParseResult.mk .Number "0.0".data []],
        ParseResult.mk .Number "1.0".data []])
     none State.initial (by simp [State.initial]) (by with_unfolding_all rfl)
     (by with_unfolding_all rfl)⟩

/-- C5 (amended): the loop `for i in [0.0, 1.0, 2.0]` with a print
body runs the body exactly three times with `i` = 0.0, 1.0, 2.0 in
order (upper bound inclusive), and `for i in [2.0, 1.0, 1.0]` (upper
below lower, positive step) runs it zero times.  The claim's literal
programs do not behave this way: an empty body `\x7b \x7d` makes the
loop node fail structurally, and `-1.0` does not parse as a literal
because `-` is a separator. -/
theorem c5_loop_iteration_semantics :
    run_program 99 ["for i in [0.0, 1.0, 2.0] \x7b".data,
      "print(message: \"v=\\(i)\")".data, "\x7d".data]
      = (Res.ok none,
         (⟨[[]], ["v=0.000000".data, "v=1.000000".data, "v=2.000000".data]⟩ : State)) ∧
    run_program 99 ["for i in [2.0, 1.0, 1.0] \x7b".data,
      "print(message: \"v=\\(i)\")".data, "\x7d".data]
      = (Res.ok none, (⟨[[]], []⟩ : State)) := by
  constructor
  · with_unfolding_all rfl
  · with_unfolding_all rfl

/-- C5 (counterexample): the claim's two programs as written — the
empty-body loop over `[0.0, 1.0, 2.0]` and the loop over
`[0.0, 1.0, -1.0]` — both fail instead of succeeding. -/
theorem c5_empty_body_and_negative_literal_fail :
    run_program 99 ["for i in [0.0, 1.0, 2.0] \x7b".data, "\x7d".data]
      = (Res.fail, State.initial) ∧
    run_program 99 ["for i in [0.0, 1.0, -1.0] \x7b".data,
      "print(message: \"v=\\(i)\")".data, "\x7d".data]
      = (Res.fail, State.initial) := by
  constructor
  · with_unfolding_all rfl
  · with_unfolding_all rfl

/-- C6 (code bug): tokenizing a line whose first character is `(`
reads `tokens.back()` of the still-empty token vector — undefined
behaviour — so the line `(2 + 3) * 4` neither tokenizes nor evaluates
to anything. -/
theorem c6_leading_parenthesis_undefined_behaviour :
    tokenize_string 99 "(2 + 3) * 4".data [] = Res.ub ∧
    run_program 99 ["(2 + 3) * 4".data] = (Res.ub, State.initial) := by
  constructor
  · with_unfolding_all rfl
  · with_unfolding_all rfl

/-- C7: `2 + 3 * 4` evaluates to `14.0` (the `*` pass runs first) and
`10 / 2 / 5` evaluates to `1.0` (division folds left to right). -/
theorem c7_operator_precedence :
    run_program 99 ["2 + 3 * 4".data] = (Res.ok (some (Value.num 14)), State.initial) ∧
    run_program 99 ["10 / 2 / 5".data] = (Res.ok (some (Value.num 1)), State.initial) := by
  constructor
  · with_unfolding_all rfl
  · with_unfolding_all rfl

/-- C8: the string literal `"a=\\(1.0 + 1.0)"` interpolates the escaped
expression, formats the numeric result with six fixed decimals and
concatenates, yielding exactly `a=2.000000`. -/
theorem c8_string_interpolation :
    run_program 99 ["var s = \"a=\\(1.0 + 1.0)\"".data]
      = (Res.ok (some (Value.str "a=2.000000".data)),
         (⟨[[("s".data, Value.str "a=2.000000".data)]], []⟩ : State)) := by
  with_unfolding_all rfl

/-- C9 (amended): after a loop that returns `true`, the scope stack is
exactly what it was before the loop, so a name unbound before the loop
— in particular one first declared inside the body — is unbound after
it, and the stack (hence the global scope) is never emptied; a name
that was also bound outside the loop remains visible, contrary to the
claim's unconditional `lookup fails`. -/
theorem c9_loop_scope_removed_on_success (fuel : Nat) (st : State)
    (input : ParseResult) (v : Option Value) (st' : State) (name : List Char)
    (hne : st.scopes ≠ []) (hwf : wfNode input = true)
    (hE : interpret_loop fuel st input = (Res.ok v, st'))
    (hun : value_for_variable st.scopes name = none) :
    value_for_variable st'.scopes name = none ∧ st'.scopes ≠ [] := by
  have h := (scope_discipline fuel).2.2.2.2.2.2.2.2.1 st input (Res.ok v) st' hne hwf hE
  rw [h.2 v rfl]
  exact ⟨hun, hne⟩

/-- C9 (counterexample): `x` is declared globally, a completed loop
declares its own `x` in the body, and after the loop the lookup of `x`
still succeeds with the global value — the claim said the lookup
fails. -/
theorem c9_shadowed_variable_still_visible :
    run_program 99 ["var x = 1.0".data, "for i in [0.0, 1.0, 0.0] \x7b".data,
      "var x = 2.0".data, "\x7d".data]
      = (Res.ok none, (⟨[[("x".data, Value.num 1)]], []⟩ : State)) ∧
    value_for_variable [[("x".data, Value.num 1)]] "x".data = some (Value.num 1) := by
  constructor
  · with_unfolding_all rfl
  · with_unfolding_all rfl

/-- C9 (witness): the amended theorem applied to a completed loop whose
body declares `x`, run from the initial state where `x` is unbound. -/
theorem c9_loop_scope_removed_on_success_witness :
    interpret_loop 40 State.initial
      (ParseResult.mk .Loop "for".data
        [ParseResult.mk .Unknown "i".data [],
         ParseResult.mk .Range "in".data
           [ParseResult.mk .Number "0.0".data [], ParseResult.mk .Number "1.0".data [],
            ParseResult.mk .Number "0.0".data []],
         ParseResult.mk .Assignment "=".data
           [ParseResult.mk .Assignment "var".data [],
            ParseResult.mk .Variable "x".data [],
            ParseResult.mk .Number "2.0".data []]])
      = (Res.ok none, State.initial) ∧
    value_for_variable State.initial.scopes "x".data = none ∧ State.initial.scopes ≠ [] :=
  ⟨by with_unfolding_all rfl,
   c9_loop_scope_removed_on_success 40 State.initial
     (ParseResult.mk .Loop "for".data
       [ParseResult.mk .Unknown "i".data [],
        ParseResult.mk .Range "in".data
          [ParseResult.mk .Number "0.0".data [], ParseResult.mk .Number "1.0".data [],
           ParseResult.mk .Number "0.0".data []],
        ParseResult.mk .Assignment "=".data
          [ParseResult.mk .Assignment "var".data [],
           ParseResult.mk .Variable "x".data [],
           ParseResult.mk .Number "2.0".data []]])
     none State.initial "x".data (by simp [State.initial]) (by with_unfolding_all rfl)
     (by with_unfolding_all rfl) (by with_unfolding_all rfl)⟩

/-- C10: inside expression evaluation the result of a `*` (or `/`)
step is pushed as the fixed six-decimal string of the product and
re-parsed as a number before the surrounding computation continues, so
the propagated value is `stodQ (to_string_double v)` rather than the
exact `v`; concretely `1 / 3 * 3` evaluates to `0.999999`, not `1`. -/
theorem c10_mul_div_intermediates_rounded (fuel : Nat) (st : State)
    (xa xb : List Char) (qa qb q : Rat)
    (ha : stodQ xa = some qa) (hb : stodQ xb = some qb)
    (hq : stodQ (to_string_double (qa * qb)) = some q) :
    interpret_expression (fuel + 6) st
      (ParseResult.mk .Expression []
        [ParseResult.mk .Number xa [], ParseResult.mk .Operator "*".data [],
         ParseResult.mk .Number xb []])
      = (Res.ok (some (Value.num q)), st) := by
  set_option maxHeartbeats 1000000 in
  simp +decide only [interpret_expression, exprPass1, exprTail, interpret_parse_result,
    interpret_number, number_from_value, ha, hb, hq, ParseResult.type,
    ParseResult.children, ParseResult.value, List.get, List.get?,
    List.getLast?_singleton, List.getLast?_cons_cons, List.nil_append,
    List.cons_append, List.append_nil, List.singleton_append,
    List.dropLast, List.length, List.length_cons, List.length_nil,
    ite_true, ite_false, dite_true, dite_false]

/-- C10 (witness): the rounding theorem applied to `2.0 * 4.0`, whose
six-decimal intermediate `8.000000` re-parses as `8`; and the pipeline
on `1 / 3 * 3`, whose intermediate `0.333333` makes the final value
`0.999999`. -/
theorem c10_mul_div_intermediates_rounded_witness :
    stodQ "2.0".data = some 2 ∧ stodQ "4.0".data = some 4 ∧
    stodQ (to_string_double (2 * 4)) = some 8 ∧
    interpret_expression 6 State.initial
      (ParseResult.mk .Expression []
        [ParseResult.mk .Number "2.0".data [], ParseResult.mk .Operator "*".data [],
         ParseResult.mk .Number "4.0".data []])
      = (Res.ok (some (Value.num 8)), State.initial) ∧
    run_program 99 ["1 / 3 * 3".data]
      = (Res.ok (some (Value.num (999999 / 1000000))), State.initial) ∧
    (999999 / 1000000 : Rat) ≠ 1 / 3 * 3 :=
  ⟨by with_unfolding_all rfl, by with_unfolding_all rfl, by with_unfolding_all rfl,
   c10_mul_div_intermediates_rounded 0 State.initial ("2.0".data) ("4.0".data) 2 4 8
     (by with_unfolding_all rfl) (by with_unfolding_all rfl) (by with_unfolding_all rfl),
   by with_unfolding_all rfl, by norm_num⟩

end Hydra
